import Mathlib

/-!
# CS-430 Image Viewer: the PPM loader and the transform matrix

A shallow embedding of the image-loading section of `main` (identical in
`src/ezview.c` lines 207-319 and `src/main.c` lines 171-281) and of the
transform code of `src/ezview.c` and of `src/main.c` (`key_callback` and the
matrix of the render loop).

Conventions of the embedding.

* The opened file `source` is the list of its unread bytes (`List Nat`, every
  byte a number below 256); reading removes bytes from the front.
* C `int` is `Int` reduced with `wrapInt` (32-bit two's complement) after every
  arithmetic operation; `char` is the signed 8-bit `char` of x86 (`toChar`).
* Locals that `main` reads without having initialised them, and the contents of
  freshly `malloc`ed memory, are taken from an `Indeterminate` record, so every
  statement holds for whatever values they happen to have.
* The `stdio` calls follow ISO C 7.21.6.2 (`fscanf`), with glibc's choices where
  the standard leaves the behaviour open.
* The two `while` loops that skip comments take fuel; running out of fuel is
  `none`.
* `malloc` fails for a request above `PTRDIFF_MAX` and succeeds otherwise.
* `float` and `double` are IEEE 754 binary32 and binary64, every operation
  rounded to nearest; `sinf` and `cosf` of the C library are parameters.
-/

namespace EzView

/-! ## Machine integers and characters -/

/-- Reduction of a mathematical integer to a 32-bit two's complement `int`. -/
def wrapInt (x : Int) : Int := (x + 2147483648) % 4294967296 - 2147483648

/-- C `a * b` on `int`. -/
def imul (a b : Int) : Int := wrapInt (a * b)

/-- C `a + b` on `int`. -/
def iadd (a b : Int) : Int := wrapInt (a + b)

/-- Conversion of an `int` to `char` (signed, 8 bits): `c = getc(source)`. -/
def toChar (x : Int) : Int := (x + 128) % 256 - 128

/-- Conversion of an `int` to `unsigned char`: `buffer->image[k] = pixel`. -/
def toUChar (x : Int) : Nat := (x % 256).toNat

/-- The value `EOF`. -/
def EOF : Int := -1

/-! ## stdio on a list of unread bytes -/

/-- `isspace` in the C locale: space, `\t`, `\n`, `\v`, `\f`, `\r`. -/
def isspace (b : Nat) : Bool := b == 32 || (9 ≤ b && b ≤ 13)

/-- `isdigit`. -/
def isdigit (b : Nat) : Bool := 48 ≤ b && b ≤ 57

/-- `getc(source)`: the next byte, or `EOF` at the end of the file. -/
def getc : List Nat → Int × List Nat
  | [] => (EOF, [])
  | b :: s => ((b : Int), s)

/-- `ungetc(c, source)` with `c` a `char`: pushes `(unsigned char) c` back,
except that `ungetc(EOF, source)` does nothing. -/
def ungetc (c : Int) (s : List Nat) : List Nat :=
  if c = EOF then s else toUChar c :: s

/-- A white-space directive of a `fscanf` format: reads up to the first byte
that is not white space, which stays unread. -/
def skipSpace : List Nat → List Nat
  | [] => []
  | b :: s => if isspace b then skipSpace s else b :: s

/-- The digits read by a `%d` conversion after the sign: accumulates the value
of the longest run of digits and returns it with the number of digits and the
unread rest. -/
def scanDigits : List Nat → Nat → Nat → Nat × Nat × List Nat
  | [], acc, n => (acc, n, [])
  | b :: s, acc, n =>
    if isdigit b then scanDigits s (acc * 10 + (b - 48)) (n + 1) else (acc, n, b :: s)

/-- What glibc stores for a `%d`: the digits are converted as by `strtol`
(saturating at the range of a 64-bit `long`) and the `long` is then cut to
`int`. -/
def storeInt (v : Int) : Int :=
  wrapInt (max (-9223372036854775808) (min v 9223372036854775807))

/-- One `%d` conversion: skips white space, reads an optional sign and a
non-empty run of digits. `none` is a failure (matching failure or end of
file), after which `fscanf` returns; a sign that was read stays consumed. -/
def scanInt (s : List Nat) : Option Int × List Nat :=
  match skipSpace s with
  | [] => (none, [])
  | b :: t =>
    if b = 45 then
      match scanDigits t 0 0 with
      | (_, 0, r) => (none, r)
      | (v, _, r) => (some (storeInt (-(v : Int))), r)
    else if b = 43 then
      match scanDigits t 0 0 with
      | (_, 0, r) => (none, r)
      | (v, _, r) => (some (storeInt (v : Int)), r)
    else
      match scanDigits (b :: t) 0 0 with
      | (_, 0, r) => (none, r)
      | (v, _, r) => (some (storeInt (v : Int)), r)

/-- The call `fscanf(source, "P%c\n", &c)`: the new value of `c` and the unread rest.
When the file does not start with `P`, or ends after it, `c` keeps its value. -/
def scanMagic (c : Int) : List Nat → Int × List Nat
  | [] => (c, [])
  | b :: s =>
    if b = 80 then
      match s with
      | [] => (c, [])
      | d :: t => (toChar d, skipSpace t)
    else (c, b :: s)

/-- The values of `width`, `height`, `maxColor` and the unread rest after
`fscanf(source, "%d %d %d\n", &width, &height, &maxColor)`, together with the
number of items assigned (the return value, which `main` ignores). -/
structure Header where
  width : Int
  height : Int
  maxColor : Int
  assigned : Nat
  rest : List Nat
deriving DecidableEq, Repr

/-- The call `fscanf(source, "%d %d %d\n", &width, &height, &maxColor)`; `w`, `h`, `m` are
the values the three variables hold before the call. -/
def scanHeader (w h m : Int) (s : List Nat) : Header :=
  match scanInt s with
  | (none, r) => ⟨w, h, m, 0, r⟩
  | (some w1, r1) =>
    match scanInt (skipSpace r1) with
    | (none, r) => ⟨w1, h, m, 1, r⟩
    | (some h1, r2) =>
      match scanInt (skipSpace r2) with
      | (none, r) => ⟨w1, h1, m, 2, r⟩
      | (some m1, r3) => ⟨w1, h1, m1, 3, skipSpace r3⟩

/-- The call `fscanf(source, "%d ", &pixel)`: the new value of `pixel` and the unread rest. -/
def scanPixel (pixel : Int) (s : List Nat) : Int × List Nat :=
  match scanInt s with
  | (none, r) => (pixel, r)
  | (some v, r) => (v, skipSpace r)

/-! ## The loader -/

/-- The values `main` reads without having written them: the locals `c`,
`width`, `height`, `maxColor`, `pixel`, and the bytes of freshly allocated
memory (`heap k` is the byte at offset `k`). -/
structure Indeterminate where
  c : Int
  width : Int
  height : Int
  maxColor : Int
  pixel : Int
  heap : Nat → Nat

/-- The record `Pixmap` of the source, with the allocated block `image` as the list of
its bytes. -/
structure Pixmap where
  width : Int
  height : Int
  magicNumber : Int
  image : List Nat
deriving DecidableEq, Repr

/-- The diagnostics of the four `exit(-1)` of the loading section. -/
inductive Diagnostic where
  | notPpmFormat
  | notEightBits
  | cannotAllocate
  | couldNotReadImage
deriving DecidableEq, Repr

/-- How the loading section of `main` ends. -/
inductive Outcome where
  | exitFailure (d : Diagnostic)
  | outOfBounds
  | loaded (buffer : Pixmap)
deriving DecidableEq, Repr

/-- The inner loop `while(c!='\n') c = getc(source);`. -/
def skipLine : Nat → Int → List Nat → Option (Int × List Nat)
  | 0, _, _ => none
  | fuel + 1, c, s =>
    if c ≠ 10 then skipLine fuel (toChar (getc s).1) (getc s).2 else some (c, s)

/-- The loop `while(c =='#') { c = getc(source); while(c!='\n') c = getc(source); }`. -/
def skipComments : Nat → Int → List Nat → Option (Int × List Nat)
  | 0, _, _ => none
  | fuel + 1, c, s =>
    if c = 35 then
      match skipLine fuel (toChar (getc s).1) (getc s).2 with
      | none => none
      | some (c1, s1) => skipComments fuel c1 s1
    else some (c, s)

/-- `malloc(n)` for an `int` `n`: the argument is converted to `size_t` (64 bits), and
a request above `PTRDIFF_MAX` fails; memory is otherwise assumed sufficient. -/
def mallocFails (n : Int) : Bool := decide (9223372036854775807 < n % 18446744073709551616)

/-- The block returned by `malloc(n)`, holding whatever the heap held. -/
def malloc (heap : Nat → Nat) (n : Int) : List Nat := (List.range n.toNat).map heap

/-- The assignment `buffer->image[k] = pixel`; `none` when `k` is outside the block. -/
def store (image : List Nat) (k : Int) (pixel : Int) : Option (List Nat) :=
  if 0 ≤ k ∧ k.toNat < image.length then some (image.set k.toNat (toUChar pixel)) else none

/-- State of the P3 loops: the local `pixel`, the unread bytes and the block. -/
structure Reader where
  pixel : Int
  source : List Nat
  image : List Nat
deriving DecidableEq, Repr

/-- `fscanf(source, "%d ", &pixel); buffer->image[k] = pixel;`. -/
def readSample (k : Int) (st : Reader) : Option Reader :=
  match store st.image k (scanPixel st.pixel st.source).1 with
  | none => none
  | some img => some ⟨(scanPixel st.pixel st.source).1, (scanPixel st.pixel st.source).2, img⟩

/-- The loop `for(j=0;j<width;j++)` of the P3 branch, with `n` iterations left. -/
def readRow (width i : Int) : Nat → Int → Reader → Option Reader
  | 0, _, st => some st
  | n + 1, j, st =>
    match readSample (iadd (imul (imul i width) 3) (imul 3 j)) st with
    | none => none
    | some st1 =>
      match readSample (iadd (iadd (imul (imul i width) 3) (imul 3 j)) 1) st1 with
      | none => none
      | some st2 =>
        match readSample (iadd (iadd (imul (imul i width) 3) (imul 3 j)) 2) st2 with
        | none => none
        | some st3 => readRow width i n (j + 1) st3

/-- The loop `for(i=0;i<height;i++)` of the P3 branch, with `n` iterations left. -/
def readRows (width : Int) : Nat → Int → Reader → Option Reader
  | 0, _, st => some st
  | n + 1, i, st =>
    match readRow width i width.toNat 0 st with
    | none => none
    | some st1 => readRows width n (i + 1) st1

/-- The header phase of `main`, from `fscanf(source, "P%c\n", &c)` to the
`fscanf` of the three numbers: `none` when the comment loops run out of fuel,
`some (Sum.inl d)` when `main` exits, else the magic number and the header. -/
def readHeader (fuel : Nat) (g : Indeterminate) (source : List Nat) :
    Option (Diagnostic ⊕ (Int × Header)) :=
  let m := scanMagic g.c source
  let magicNumber := m.1 - 48
  if magicNumber ≠ 6 ∧ magicNumber ≠ 3 then some (Sum.inl Diagnostic.notPpmFormat)
  else
    match skipComments fuel (toChar (getc m.2).1) (getc m.2).2 with
    | none => none
    | some (c, s) =>
      some (Sum.inr (magicNumber, scanHeader g.width g.height g.maxColor (ungetc c s)))

/-- The pixel phase of `main`, from the test of `maxColor` to `fclose(source)`. The first
allocation, `malloc(sizeof(Pixmap))`, is taken to succeed. In the P6 branch `fread` takes the
bytes that are left, at most `size` of them, and returns their number. -/
def readImage (g : Indeterminate) (magicNumber : Int) (hd : Header) : Outcome :=
  if hd.maxColor > 255 ∨ hd.maxColor ≤ 0 then Outcome.exitFailure Diagnostic.notEightBits
  else
    let size := imul (imul hd.width hd.height) 3
    if mallocFails size then Outcome.exitFailure Diagnostic.cannotAllocate
    else
      let image := malloc g.heap size
      if magicNumber = 6 then
        let got := hd.rest.take size.toNat
        if (got.length : Int) ≠ size then Outcome.exitFailure Diagnostic.couldNotReadImage
        else Outcome.loaded ⟨hd.width, hd.height, magicNumber, got ++ image.drop got.length⟩
      else if magicNumber = 3 then
        match readRows hd.width hd.height.toNat 0 ⟨g.pixel, hd.rest, image⟩ with
        | none => Outcome.outOfBounds
        | some st => Outcome.loaded ⟨hd.width, hd.height, magicNumber, st.image⟩
      else Outcome.loaded ⟨hd.width, hd.height, magicNumber, image⟩

/-- The image-loading section of `main`: `none` when the comment loops run out of fuel. -/
def decode (fuel : Nat) (g : Indeterminate) (source : List Nat) : Option Outcome :=
  match readHeader fuel g source with
  | none => none
  | some (Sum.inl d) => some (Outcome.exitFailure d)
  | some (Sum.inr (magicNumber, hd)) => some (readImage g magicNumber hd)

/-- Bytes of an ASCII string. -/
def bytes (s : String) : List Nat := s.toList.map Char.toNat

/-- A sample environment: every indeterminate value is zero. -/
def zeroed : Indeterminate := ⟨0, 0, 0, 0, 0, fun _ => 0⟩

/-! ## Files as the format describes them -/

/-- Decimal digits of `n`, most significant first, `fuel` bounding their number. -/
def decimalAux : Nat → Nat → List Nat
  | 0, n => [48 + n % 10]
  | fuel + 1, n => if n < 10 then [48 + n] else decimalAux fuel (n / 10) ++ [48 + n % 10]

/-- The decimal numeral of `n` in ASCII. -/
def decimal (n : Nat) : List Nat := decimalAux n n

/-- The header lines `w h\n` and `m\n` of a pixel-map file. -/
def headerLines (w h m : Nat) : List Nat :=
  decimal w ++ 32 :: (decimal h ++ 10 :: (decimal m ++ [10]))

/-- The binary file: `P6\n`, the header lines, then the bytes of `V` raw. -/
def p6File (w h m : Nat) (V : List Nat) : List Nat :=
  80 :: 54 :: 10 :: (headerLines w h m ++ V)

/-- Pixel data in ASCII: every value as a decimal numeral followed by its separator. -/
def asciiSamples : List (Nat × List Nat) → List Nat
  | [] => []
  | p :: rest => decimal p.1 ++ (p.2 ++ asciiSamples rest)

/-- The separators are white space, and only the last one may be empty. -/
def separated : List (Nat × List Nat) → Bool
  | [] => true
  | p :: rest => p.2.all isspace && (!p.2.isEmpty || rest.isEmpty) && separated rest

/-- The ASCII file: `P3\n`, the header lines, then the values with their separators. -/
def p3File (w h m : Nat) (items : List (Nat × List Nat)) : List Nat :=
  80 :: 51 :: 10 :: (headerLines w h m ++ asciiSamples items)

/-- The unread bytes `r` do not continue a run of digits. -/
def stops (r : List Nat) : Prop := ∀ b ∈ r.head?, isdigit b = false

/-! ## Floating point

`float` and `double` are IEEE 754 binary32 and binary64 with round to nearest, ties to even.
A finite number of a format is an integer multiple of the least subnormal number of that
format (`2^-149` and `2^-1074`), and is stored as that integer. Every operation computes
the exact result and rounds it to 24 or 53 significant bits. Infinities and NaN are not
represented: a result beyond the largest finite number stays finite, so statements are meant
for magnitudes below `2^127`; `-0.0` is `0`. -/

/-- The power `2^k`. -/
def pow2 (k : Nat) : Nat := 1 <<< k

/-- The quotient `n / d` rounded to the nearest integer, ties to the even one. -/
def roundHalfEven (n d : Nat) : Nat :=
  if 2 * (n % d) < d then n / d
  else if d < 2 * (n % d) then n / d + 1
  else if n / d % 2 = 0 then n / d else n / d + 1

/-- Binary search for the number of binary digits of `n`, for `n < 2^2^k`. -/
def bitLengthAux : Nat → Nat → Nat
  | 0, n => if n = 0 then 0 else 1
  | k + 1, n =>
    if n < pow2 (pow2 k) then bitLengthAux k n else pow2 k + bitLengthAux k (n / pow2 (pow2 k))

/-- Number of binary digits of `n`, for `n < 2^8192`. -/
def bitLength (n : Nat) : Nat := bitLengthAux 13 n

/-- The ratio `n / d`, counted in units of the least subnormal number of a format, rounded to
`p` significant bits, again in these units. -/
def roundRatio (p : Nat) (n : Int) (d : Nat) : Int :=
  Int.sign n *
    ((roundHalfEven n.natAbs (d * pow2 (bitLength (n.natAbs / d) - p)) *
      pow2 (bitLength (n.natAbs / d) - p) : Nat) : Int)

/-- A finite `float`: the value is `units * 2^-149`. -/
structure F32 where
  units : Int
deriving DecidableEq, Repr

/-- A finite `double`: the value is `units * 2^-1074`. -/
structure F64 where
  units : Int
deriving DecidableEq, Repr

/-- A decimal constant `n / d` of type `double`, such as `.1` or `3.1415926535897`. -/
def F64.ofRatio (n : Int) (d : Nat) : F64 := ⟨roundRatio 53 (n * pow2 1074) d⟩

/-- Conversion of an `int` to `double`. -/
def F64.ofInt (k : Int) : F64 := ⟨roundRatio 53 (k * pow2 1074) 1⟩

/-- C `a + b` on `double`. -/
def F64.add (a b : F64) : F64 := ⟨roundRatio 53 (a.units + b.units) 1⟩

/-- C `a - b` on `double`. -/
def F64.sub (a b : F64) : F64 := ⟨roundRatio 53 (a.units - b.units) 1⟩

/-- C `a * b` on `double`. -/
def F64.mul (a b : F64) : F64 := ⟨roundRatio 53 (a.units * b.units) (pow2 1074)⟩

/-- C `a / b` on `double`, for `b` other than zero. -/
def F64.div (a b : F64) : F64 :=
  ⟨roundRatio 53 (a.units * pow2 1074 * Int.sign b.units) b.units.natAbs⟩

/-- Conversion of a `double` to `float`. -/
def F64.toF32 (a : F64) : F32 := ⟨roundRatio 24 a.units (pow2 925)⟩

/-- Conversion of an `int` to `float`. -/
def F32.ofInt (k : Int) : F32 := ⟨roundRatio 24 (k * pow2 149) 1⟩

/-- The `float` `0.f`. -/
def F32.zero : F32 := ⟨0⟩

/-- The `float` `1.f`. -/
def F32.one : F32 := F32.ofInt 1

/-- The `float` of value `m * 2^e`, for `|m| < 2^24` and `e ≥ -149`. -/
def F32.dyadic (m : Int) (e : Int) : F32 := ⟨m * pow2 (e + 149).toNat⟩

/-- C `a + b` on `float`. -/
def F32.add (a b : F32) : F32 := ⟨roundRatio 24 (a.units + b.units) 1⟩

/-- C `a * b` on `float`, for finite operands whose product is below `2^128` in magnitude:
the C result beyond that is an infinity, which the model does not have. -/
def F32.mul (a b : F32) : F32 := ⟨roundRatio 24 (a.units * b.units) (pow2 149)⟩

/-- C `-a` on `float`. -/
def F32.neg (a : F32) : F32 := ⟨-a.units⟩

/-- Conversion of a `float` to `double`, which is exact. -/
def F32.toF64 (a : F32) : F64 := ⟨a.units * pow2 925⟩

/-- The value of a `float` as a rational number. -/
def F32.toRat (a : F32) : ℚ := (a.units : ℚ) / (pow2 149 : ℚ)

/-- C `a += d` for a `float` `a` and a `double` `d`: the sum is computed in `double`. -/
def F32.addDouble (a : F32) (d : F64) : F32 := (F64.add a.toF64 d).toF32

/-- C `a -= d` for a `float` `a` and a `double` `d`. -/
def F32.subDouble (a : F32) (d : F64) : F32 := (F64.sub a.toF64 d).toF32

/-- C `a *= d` for a `float` `a` and a `double` `d`. -/
def F32.mulDouble (a : F32) (d : F64) : F32 := (F64.mul a.toF64 d).toF32

/-- The global `const double pi = 3.1415926535897;`. -/
def pi : F64 := F64.ofRatio 31415926535897 10000000000000

/-- The constant expression `90*pi/180`. -/
def quarterTurn : F64 := F64.div (F64.mul (F64.ofInt 90) pi) (F64.ofInt 180)

/-- The constant `.1`. -/
def tenth : F64 := F64.ofRatio 1 10

/-- The constant `.5`. -/
def half : F64 := F64.ofRatio 5 10

/-- Modelled from the spec: `GLFW_PRESS` of `GLFW/glfw3.h`, which is not under src/; a key
event is a press, as opposed to a release (0) or a repeat (2). -/
def GLFW_PRESS : Int := 1

/-- Modelled from the spec: key code of Escape in `GLFW/glfw3.h`, which is not under src/. -/
def GLFW_KEY_ESCAPE : Int := 256

/-- Modelled from the spec: key code of Q in `GLFW/glfw3.h`, which is not under src/. -/
def GLFW_KEY_Q : Int := 81

/-- Modelled from the spec: key code of E in `GLFW/glfw3.h`, which is not under src/. -/
def GLFW_KEY_E : Int := 69

/-- Modelled from the spec: key code of `=` in `GLFW/glfw3.h`, which is not under src/. -/
def GLFW_KEY_EQUAL : Int := 61

/-- Modelled from the spec: key code of `-` in `GLFW/glfw3.h`, which is not under src/. -/
def GLFW_KEY_MINUS : Int := 45

/-- Modelled from the spec: key code of Down in `GLFW/glfw3.h`, which is not under src/. -/
def GLFW_KEY_DOWN : Int := 264

/-- Modelled from the spec: key code of Up in `GLFW/glfw3.h`, which is not under src/. -/
def GLFW_KEY_UP : Int := 265

/-- Modelled from the spec: key code of Left in `GLFW/glfw3.h`, which is not under src/. -/
def GLFW_KEY_LEFT : Int := 263

/-- Modelled from the spec: key code of Right in `GLFW/glfw3.h`, which is not under src/. -/
def GLFW_KEY_RIGHT : Int := 262

/-- Modelled from the spec: key code of D in `GLFW/glfw3.h`, which is not under src/. -/
def GLFW_KEY_D : Int := 68

/-- Modelled from the spec: key code of A in `GLFW/glfw3.h`, which is not under src/. -/
def GLFW_KEY_A : Int := 65

/-- Modelled from the spec: key code of W in `GLFW/glfw3.h`, which is not under src/. -/
def GLFW_KEY_W : Int := 87

/-- Modelled from the spec: key code of S in `GLFW/glfw3.h`, which is not under src/. -/
def GLFW_KEY_S : Int := 83

/-- The six global `float` variables of `ezview.c` and the close flag of the window. -/
structure Viewer where
  shouldClose : Bool
  rotation : F32
  scale : F32
  translateX : F32
  translateY : F32
  shearX : F32
  shearY : F32
deriving DecidableEq, Repr

/-- The initialisers of the globals: `rotation = 0`, `scale = 1`, the others `0`. -/
def Viewer.initial : Viewer :=
  ⟨false, F32.ofInt 0, F32.ofInt 1, F32.ofInt 0, F32.ofInt 0, F32.ofInt 0, F32.ofInt 0⟩

/-- The function `key_callback` of `ezview.c`: thirteen `if` statements in sequence. -/
def key_callback (key action : Int) (v : Viewer) : Viewer :=
  let v := if key = GLFW_KEY_ESCAPE ∧ action = GLFW_PRESS then { v with shouldClose := true } else v
  let v := if key = GLFW_KEY_Q ∧ action = GLFW_PRESS then
    { v with rotation := v.rotation.addDouble quarterTurn } else v
  let v := if key = GLFW_KEY_E ∧ action = GLFW_PRESS then
    { v with rotation := v.rotation.subDouble quarterTurn } else v
  let v := if key = GLFW_KEY_EQUAL ∧ action = GLFW_PRESS then
    { v with scale := v.scale.mul (F32.ofInt 2) } else v
  let v := if key = GLFW_KEY_MINUS ∧ action = GLFW_PRESS then
    { v with scale := v.scale.mulDouble half } else v
  let v := if key = GLFW_KEY_DOWN ∧ action = GLFW_PRESS then
    { v with translateY := v.translateY.addDouble tenth } else v
  let v := if key = GLFW_KEY_UP ∧ action = GLFW_PRESS then
    { v with translateY := v.translateY.subDouble tenth } else v
  let v := if key = GLFW_KEY_LEFT ∧ action = GLFW_PRESS then
    { v with translateX := v.translateX.addDouble tenth } else v
  let v := if key = GLFW_KEY_RIGHT ∧ action = GLFW_PRESS then
    { v with translateX := v.translateX.subDouble tenth } else v
  let v := if key = GLFW_KEY_D ∧ action = GLFW_PRESS then
    { v with shearY := v.shearY.addDouble tenth } else v
  let v := if key = GLFW_KEY_A ∧ action = GLFW_PRESS then
    { v with shearY := v.shearY.subDouble tenth } else v
  let v := if key = GLFW_KEY_W ∧ action = GLFW_PRESS then
    { v with shearX := v.shearX.addDouble tenth } else v
  let v := if key = GLFW_KEY_S ∧ action = GLFW_PRESS then
    { v with shearX := v.shearX.subDouble tenth } else v
  v

/-! ## The matrix of the render loop -/

/-- The type `mat4x4` of `linmath.h`: `m c r` is `m[c][r]`, column `c`, row `r`. -/
abbrev mat4x4 := Fin 4 → Fin 4 → F32

/-- Modelled from the spec: `mat4x4_identity` of `linmath.h`, which is not under src/:
`M[i][j] = i==j ? 1.f : 0.f`. -/
def mat4x4_identity : mat4x4 := fun i j => if i = j then F32.one else F32.zero

/-- Modelled from the spec: `mat4x4_mul` of `linmath.h`, which is not under src/: the product
`a · b` of the composition `((R · H) · S) · T`, with `temp[c][r] = 0.f` and then
`temp[c][r] += a[k][r] * b[c][k]` for `k` from 0 to 3. -/
def mat4x4_mul (a b : mat4x4) : mat4x4 := fun c r =>
  (((F32.zero.add ((a 0 r).mul (b c 0))).add ((a 1 r).mul (b c 1))).add
    ((a 2 r).mul (b c 2))).add ((a 3 r).mul (b c 3))

/-- Modelled from the spec: `mat4x4_rotate_Z` of `linmath.h`, which is not under src/: the
rotation by `angle` about the axis perpendicular to the image plane, `M` times the matrix with
columns `(c, s, 0, 0)`, `(-s, c, 0, 0)`, `(0, 0, 1, 0)`, `(0, 0, 0, 1)`, for `s = sinf(angle)`
and `c = cosf(angle)` of the C library, which are parameters. -/
def mat4x4_rotate_Z (sinf cosf : F32 → F32) (M : mat4x4) (angle : F32) : mat4x4 :=
  mat4x4_mul M (fun i j =>
    match i.val, j.val with
    | 0, 0 => cosf angle
    | 0, 1 => sinf angle
    | 1, 0 => (sinf angle).neg
    | 1, 1 => cosf angle
    | 2, 2 => F32.one
    | 3, 3 => F32.one
    | _, _ => F32.zero)

/-- The assignment `m[i][j] = x`. -/
def setEntry (m : mat4x4) (i j : Fin 4) (x : F32) : mat4x4 :=
  fun c r => if c = i ∧ r = j then x else m c r

/-- Modelled from the spec: `mat4x4_translate` of `linmath.h`, which is not under src/: the
translation by `(x, y, z)`, the identity with `T[3][0] = x`, `T[3][1] = y`, `T[3][2] = z`. -/
def mat4x4_translate (x y z : F32) : mat4x4 :=
  setEntry (setEntry (setEntry mat4x4_identity 3 0 x) 3 1 y) 3 2 z

/-- The matrix `r` of the render loop. -/
def rotationMatrix (sinf cosf : F32 → F32) (v : Viewer) : mat4x4 :=
  mat4x4_rotate_Z sinf cosf mat4x4_identity v.rotation

/-- The matrix `h` of the render loop: `h[0][1] = shearX; h[1][0] = shearY;`. -/
def shearMatrix (v : Viewer) : mat4x4 :=
  setEntry (setEntry mat4x4_identity 0 1 v.shearX) 1 0 v.shearY

/-- The matrix `s` of the render loop: `s[0][0] = s[0][0]*scale; s[1][1] = s[1][1]*scale;`. -/
def scaleMatrix (v : Viewer) : mat4x4 :=
  setEntry (setEntry mat4x4_identity 0 0 ((mat4x4_identity 0 0).mul v.scale)) 1 1
    ((setEntry mat4x4_identity 0 0 ((mat4x4_identity 0 0).mul v.scale) 1 1).mul v.scale)

/-- The matrix `t` of the render loop: `mat4x4_translate(t, translateX, translateY, 0)`. -/
def translationMatrix (v : Viewer) : mat4x4 :=
  mat4x4_translate v.translateX v.translateY (F32.ofInt 0)

/-- The matrix `mvp` of the render loop of `ezview.c`: `rh = r·h`, `rhs = rh·s`,
`mvp = rhs·t`. -/
def mvp (sinf cosf : F32 → F32) (v : Viewer) : mat4x4 :=
  mat4x4_mul (mat4x4_mul (mat4x4_mul (rotationMatrix sinf cosf v) (shearMatrix v))
    (scaleMatrix v)) (translationMatrix v)

/-- One statement `if (key == K && action == GLFW_PRESS) f;` of a `key_callback`. -/
def onPress {σ : Type} (key action K : Int) (f : σ → σ) (v : σ) : σ :=
  if key = K ∧ action = GLFW_PRESS then f v else v

/-! ## The command table of the specification -/

/-- The command table as the specification words it, with the default key bindings: on a
press, Q adds `pi/2` to `rotation` and E subtracts it, `=` multiplies `scale` by 2 and `-` by
0.5, Up subtracts 0.1 from `translateY` and Down adds it, Left adds 0.1 to `translateX` and
Right subtracts it, W adds 0.1 to `shearX` and S subtracts it, A subtracts 0.1 from `shearY`
and D adds it, Escape asks the host to quit; nothing else changes anything. The arithmetic is
that of the C compound assignments on a `float`. -/
def commandTable (key action : Int) (v : Viewer) : Viewer :=
  if action = GLFW_PRESS then
    if key = GLFW_KEY_Q then
      { v with rotation := v.rotation.addDouble (F64.div pi (F64.ofInt 2)) }
    else if key = GLFW_KEY_E then
      { v with rotation := v.rotation.subDouble (F64.div pi (F64.ofInt 2)) }
    else if key = GLFW_KEY_EQUAL then { v with scale := v.scale.mul (F32.ofInt 2) }
    else if key = GLFW_KEY_MINUS then { v with scale := v.scale.mulDouble half }
    else if key = GLFW_KEY_UP then { v with translateY := v.translateY.subDouble tenth }
    else if key = GLFW_KEY_DOWN then { v with translateY := v.translateY.addDouble tenth }
    else if key = GLFW_KEY_LEFT then { v with translateX := v.translateX.addDouble tenth }
    else if key = GLFW_KEY_RIGHT then { v with translateX := v.translateX.subDouble tenth }
    else if key = GLFW_KEY_W then { v with shearX := v.shearX.addDouble tenth }
    else if key = GLFW_KEY_S then { v with shearX := v.shearX.subDouble tenth }
    else if key = GLFW_KEY_A then { v with shearY := v.shearY.subDouble tenth }
    else if key = GLFW_KEY_D then { v with shearY := v.shearY.addDouble tenth }
    else if key = GLFW_KEY_ESCAPE then { v with shouldClose := true }
    else v
  else v

/-! ## The transform state, `key_callback` and render loop of `main.c` -/

/-- The six global `float` variables of `main.c` and the close flag of the window. -/
structure MainViewer where
  shouldClose : Bool
  rotation : F32
  scale : F32
  translate_x : F32
  translate_y : F32
  shear_x : F32
  shear_y : F32
deriving DecidableEq, Repr

/-- The initialisers of the globals of `main.c`: `rotation = 0`, `scale = 1`, the others `0`. -/
def MainViewer.initial : MainViewer :=
  ⟨false, F32.ofInt 0, F32.ofInt 1, F32.ofInt 0, F32.ofInt 0, F32.ofInt 0, F32.ofInt 0⟩

/-- The field correspondence between the two files: `translate_x` is `translateX`,
`translate_y` is `translateY`, `shear_x` is `shearX`, `shear_y` is `shearY`. -/
def MainViewer.toViewer (v : MainViewer) : Viewer :=
  ⟨v.shouldClose, v.rotation, v.scale, v.translate_x, v.translate_y, v.shear_x, v.shear_y⟩

/-- The function `key_callback` of `main.c`: thirteen `if` statements in sequence. -/
def Main.key_callback (key action : Int) (v : MainViewer) : MainViewer :=
  let v := if key = GLFW_KEY_ESCAPE ∧ action = GLFW_PRESS then { v with shouldClose := true } else v
  let v := if key = GLFW_KEY_Q ∧ action = GLFW_PRESS then
    { v with rotation := v.rotation.addDouble quarterTurn } else v
  let v := if key = GLFW_KEY_E ∧ action = GLFW_PRESS then
    { v with rotation := v.rotation.subDouble quarterTurn } else v
  let v := if key = GLFW_KEY_EQUAL ∧ action = GLFW_PRESS then
    { v with scale := v.scale.mul (F32.ofInt 2) } else v
  let v := if key = GLFW_KEY_MINUS ∧ action = GLFW_PRESS then
    { v with scale := v.scale.mulDouble half } else v
  let v := if key = GLFW_KEY_DOWN ∧ action = GLFW_PRESS then
    { v with translate_y := v.translate_y.addDouble tenth } else v
  let v := if key = GLFW_KEY_UP ∧ action = GLFW_PRESS then
    { v with translate_y := v.translate_y.subDouble tenth } else v
  let v := if key = GLFW_KEY_LEFT ∧ action = GLFW_PRESS then
    { v with translate_x := v.translate_x.addDouble tenth } else v
  let v := if key = GLFW_KEY_RIGHT ∧ action = GLFW_PRESS then
    { v with translate_x := v.translate_x.subDouble tenth } else v
  let v := if key = GLFW_KEY_W ∧ action = GLFW_PRESS then
    { v with shear_y := v.shear_y.addDouble tenth } else v
  let v := if key = GLFW_KEY_S ∧ action = GLFW_PRESS then
    { v with shear_y := v.shear_y.subDouble tenth } else v
  let v := if key = GLFW_KEY_D ∧ action = GLFW_PRESS then
    { v with shear_x := v.shear_x.addDouble tenth } else v
  let v := if key = GLFW_KEY_A ∧ action = GLFW_PRESS then
    { v with shear_x := v.shear_x.subDouble tenth } else v
  v

/-- The matrix `mvp` of the render loop of `main.c`: `r` from `rotation`, `h` with
`h[0][1] = shear_x; h[1][0] = shear_y;`, `s` from `scale`, `t` from `translate_x` and
`translate_y`, and `mvp = ((r·h)·s)·t`. -/
def Main.mvp (sinf cosf : F32 → F32) (v : MainViewer) : mat4x4 :=
  mat4x4_mul
    (mat4x4_mul
      (mat4x4_mul (mat4x4_rotate_Z sinf cosf mat4x4_identity v.rotation)
        (setEntry (setEntry mat4x4_identity 0 1 v.shear_x) 1 0 v.shear_y))
      (setEntry (setEntry mat4x4_identity 0 0 ((mat4x4_identity 0 0).mul v.scale)) 1 1
        ((setEntry mat4x4_identity 0 0 ((mat4x4_identity 0 0).mul v.scale) 1 1).mul v.scale)))
    (mat4x4_translate v.translate_x v.translate_y (F32.ofInt 0))

/-- The state after a sequence of key events, the first event first, in `ezview.c`. -/
def keyEvents (events : List (Int × Int)) (v : Viewer) : Viewer :=
  events.foldl (fun v e => key_callback e.1 e.2 v) v

/-- The state after a sequence of key events, the first event first, in `main.c`. -/
def Main.keyEvents (events : List (Int × Int)) (v : MainViewer) : MainViewer :=
  events.foldl (fun v e => Main.key_callback e.1 e.2 v) v

/-! ## Unfolding equations and elementary facts -/

theorem readRow_zero (width i j : Int) (st : Reader) : readRow width i 0 j st = some st := rfl

theorem readRow_succ (width i j : Int) (n : Nat) (st : Reader) :
    readRow width i (n + 1) j st =
      match readSample (iadd (imul (imul i width) 3) (imul 3 j)) st with
      | none => none
      | some st1 =>
        match readSample (iadd (iadd (imul (imul i width) 3) (imul 3 j)) 1) st1 with
        | none => none
        | some st2 =>
          match readSample (iadd (iadd (imul (imul i width) 3) (imul 3 j)) 2) st2 with
          | none => none
          | some st3 => readRow width i n (j + 1) st3 := rfl

theorem readRows_zero (width i : Int) (st : Reader) : readRows width 0 i st = some st := rfl

theorem readRows_succ (width i : Int) (n : Nat) (st : Reader) :
    readRows width (n + 1) i st =
      match readRow width i width.toNat 0 st with
      | none => none
      | some st1 => readRows width n (i + 1) st1 := rfl

theorem skipSpace_nil : skipSpace [] = [] := rfl

theorem skipSpace_cons (b : Nat) (s : List Nat) :
    skipSpace (b :: s) = if isspace b then skipSpace s else b :: s := rfl

theorem scanDigits_nil (acc n : Nat) : scanDigits [] acc n = (acc, n, []) := rfl

theorem scanDigits_cons (b : Nat) (s : List Nat) (acc n : Nat) :
    scanDigits (b :: s) acc n =
      if isdigit b then scanDigits s (acc * 10 + (b - 48)) (n + 1) else (acc, n, b :: s) := rfl

theorem skipComments_succ (fuel : Nat) (c : Int) (s : List Nat) :
    skipComments (fuel + 1) c s =
      if c = 35 then
        match skipLine fuel (toChar (getc s).1) (getc s).2 with
        | none => none
        | some (c1, s1) => skipComments fuel c1 s1
      else some (c, s) := rfl

theorem wrapInt_range (x : Int) : -2147483648 ≤ wrapInt x ∧ wrapInt x < 2147483648 := by
  unfold wrapInt; omega

theorem wrapInt_of_range (x : Int) (h1 : -2147483648 ≤ x) (h2 : x < 2147483648) :
    wrapInt x = x := by
  unfold wrapInt; omega

theorem storeInt_of_range (x : Int) (h1 : -2147483648 ≤ x) (h2 : x < 2147483648) :
    storeInt x = x := by
  unfold storeInt
  rw [min_eq_left (by omega), max_eq_right (by omega)]
  exact wrapInt_of_range x h1 h2

theorem mallocFails_eq_false (n : Int) (h1 : -2147483648 ≤ n) (h2 : n < 2147483648) :
    mallocFails n = false ↔ 0 ≤ n := by
  unfold mallocFails
  simp only [decide_eq_false_iff_not, not_lt]
  omega

theorem toChar_of_lt (b : Nat) (h : b < 128) : toChar (b : Int) = b := by
  unfold toChar; omega

theorem toUChar_of_lt (b : Nat) (h : b < 256) : toUChar (b : Int) = b := by
  unfold toUChar; omega

theorem store_length {image : List Nat} {k pixel : Int} {img : List Nat}
    (h : store image k pixel = some img) : img.length = image.length := by
  unfold store at h
  split at h
  · cases h; simp
  · cases h

theorem readSample_length {k : Int} {st st1 : Reader} (h : readSample k st = some st1) :
    st1.image.length = st.image.length := by
  unfold readSample at h
  split at h
  · cases h
  · rename_i img hs
    cases h
    exact store_length hs

theorem readRow_length (width i : Int) : ∀ (n : Nat) (j : Int) (st st1 : Reader),
    readRow width i n j st = some st1 → st1.image.length = st.image.length := by
  intro n
  induction n with
  | zero => intro j st st1 h; rw [readRow_zero] at h; cases h; rfl
  | succ n ih =>
    intro j st st1 h
    rw [readRow_succ] at h
    split at h
    · cases h
    · rename_i a ha
      split at h
      · cases h
      · rename_i b hb
        split at h
        · cases h
        · rename_i c hc
          rw [ih _ _ _ h, readSample_length hc, readSample_length hb, readSample_length ha]

theorem readRows_length (width : Int) : ∀ (n : Nat) (i : Int) (st st1 : Reader),
    readRows width n i st = some st1 → st1.image.length = st.image.length := by
  intro n
  induction n with
  | zero => intro i st st1 h; rw [readRows_zero] at h; cases h; rfl
  | succ n ih =>
    intro i st st1 h
    rw [readRows_succ] at h
    split at h
    · cases h
    · rename_i a ha
      rw [ih _ _ _ h, readRow_length _ _ _ _ _ _ ha]

theorem malloc_length (heap : Nat → Nat) (n : Int) : (malloc heap n).length = n.toNat := by
  simp [malloc]


theorem readImage_loaded_length (g : Indeterminate) (magicNumber : Int) (hd : Header) (pm : Pixmap)
    (h : readImage g magicNumber hd = Outcome.loaded pm) :
    pm.width = hd.width ∧ pm.height = hd.height ∧
      (pm.image.length : Int) = imul (imul hd.width hd.height) 3 := by
  unfold readImage at h
  have hr := wrapInt_range (imul hd.width hd.height * 3)
  have hsz : imul (imul hd.width hd.height) 3 = wrapInt (imul hd.width hd.height * 3) := rfl
  split at h
  · cases h
  · simp only at h
    split at h
    · cases h
    · rename_i hm
      have hm2 : mallocFails (imul (imul hd.width hd.height) 3) = false := by simpa using hm
      rw [hsz] at hm2
      rw [mallocFails_eq_false _ hr.1 hr.2] at hm2
      split at h
      · split at h
        · cases h
        · rename_i hlen
          cases h
          refine ⟨rfl, rfl, ?_⟩
          simp only [List.length_append, List.length_drop, malloc_length]
          simp only [ne_eq, not_not] at hlen
          rw [hsz] at hlen ⊢
          omega
      · split at h
        · split at h
          · cases h
          · rename_i st hst
            cases h
            refine ⟨rfl, rfl, ?_⟩
            have := readRows_length _ _ _ _ _ hst
            simp only at this
            rw [this, malloc_length, hsz]
            omega
        · cases h
          refine ⟨rfl, rfl, ?_⟩
          simp only
          rw [malloc_length, hsz]
          omega

theorem decode_loaded (fuel : Nat) (g : Indeterminate) (source : List Nat) (pm : Pixmap)
    (h : decode fuel g source = some (Outcome.loaded pm)) :
    ∃ magicNumber hd, readHeader fuel g source = some (Sum.inr (magicNumber, hd)) ∧
      readImage g magicNumber hd = Outcome.loaded pm := by
  unfold decode at h
  split at h
  · cases h
  · cases h
  · rename_i mn hd hh
    exact ⟨mn, hd, hh, by simpa using h⟩

theorem decode_of_readHeader {fuel : Nat} {g : Indeterminate} {source : List Nat}
    {magicNumber : Int} {hd : Header}
    (h : readHeader fuel g source = some (Sum.inr (magicNumber, hd))) :
    decode fuel g source = some (readImage g magicNumber hd) := by
  unfold decode
  rw [h]

theorem readImage_ne_notPpmFormat (g : Indeterminate) (magicNumber : Int) (hd : Header) :
    readImage g magicNumber hd ≠ Outcome.exitFailure Diagnostic.notPpmFormat := by
  unfold readImage
  intro h
  split at h
  · cases h
  · simp only at h
    split at h
    · cases h
    · split at h
      · split at h <;> cases h
      · split at h
        · split at h <;> cases h
        · cases h

theorem readImage_notEightBits_iff (g : Indeterminate) (magicNumber : Int) (hd : Header) :
    readImage g magicNumber hd = Outcome.exitFailure Diagnostic.notEightBits ↔
      (hd.maxColor ≤ 0 ∨ hd.maxColor > 255) := by
  unfold readImage
  constructor
  · intro h
    split at h
    · rename_i hm; omega
    · simp only at h
      split at h
      · cases h
      · split at h
        · split at h <;> cases h
        · split at h
          · split at h <;> cases h
          · cases h
  · intro h
    rw [if_pos (by omega)]

theorem readImage_negative (g : Indeterminate) (magicNumber : Int) (hd : Header)
    (hneg : imul (imul hd.width hd.height) 3 < 0) :
    readImage g magicNumber hd = Outcome.exitFailure Diagnostic.notEightBits ∨
      readImage g magicNumber hd = Outcome.exitFailure Diagnostic.cannotAllocate := by
  unfold readImage
  split
  · exact Or.inl rfl
  · right
    have hr := wrapInt_range (imul hd.width hd.height * 3)
    have hsz : imul (imul hd.width hd.height) 3 = wrapInt (imul hd.width hd.height * 3) := rfl
    have hm : mallocFails (imul (imul hd.width hd.height) 3) = true := by
      by_contra hc
      have hc2 : mallocFails (imul (imul hd.width hd.height) 3) = false := by simpa using hc
      rw [hsz, mallocFails_eq_false _ hr.1 hr.2] at hc2
      rw [hsz] at hneg
      omega
    simp only [hm, if_true]

/-- Claim C5. An input that begins with `P` followed by a byte `c` is rejected with the
diagnostic of the wrong format exactly when `c` is neither `'3'` nor `'6'`, whatever
follows `c` in the file. -/
theorem unsupported_variant_iff (fuel : Nat) (g : Indeterminate) (c : Nat) (rest : List Nat)
    (hc : c < 256) :
    decode fuel g (80 :: c :: rest) = some (Outcome.exitFailure Diagnostic.notPpmFormat) ↔
      ¬ (c = 51 ∨ c = 54) := by
  have hm : scanMagic g.c (80 :: c :: rest) = (toChar c, skipSpace rest) := rfl
  unfold decode readHeader
  rw [hm]
  simp only
  by_cases h : toChar (c : Int) - 48 ≠ 6 ∧ toChar (c : Int) - 48 ≠ 3
  · rw [if_pos h]
    simp only [true_iff]
    unfold toChar at h
    omega
  · rw [if_neg h]
    have hc2 : c = 51 ∨ c = 54 := by
      unfold toChar at h
      omega
    simp only [hc2, not_true_eq_false, iff_false]
    split
    · simp
    · rename_i d hd
      split at hd <;> cases hd
    · rename_i mn hd hh
      simp only [Option.some.injEq]
      exact readImage_ne_notPpmFormat g mn hd

/-- Witness of `unsupported_variant_iff`: the magic token `P5` is rejected. -/
theorem unsupported_variant_iff_witness :
    53 < 256 ∧
      (decode 1 zeroed (80 :: 53 :: bytes "\n3 2\n255\n") =
          some (Outcome.exitFailure Diagnostic.notPpmFormat) ↔ ¬ (53 = 51 ∨ 53 = 54)) :=
  ⟨by decide, unsupported_variant_iff 1 zeroed 53 (bytes "\n3 2\n255\n") (by decide)⟩

/-- Claim C6. When the magic token is accepted and the three numbers of the header have been
read, loading ends with the diagnostic of the colour depth exactly when `maxColor` is at most 0
or above 255. -/
theorem colour_depth_iff (fuel : Nat) (g : Indeterminate) (source : List Nat)
    (magicNumber : Int) (hd : Header)
    (hh : readHeader fuel g source = some (Sum.inr (magicNumber, hd)))
    (_h3 : hd.assigned = 3) :
    decode fuel g source = some (Outcome.exitFailure Diagnostic.notEightBits) ↔
      (hd.maxColor ≤ 0 ∨ hd.maxColor > 255) := by
  rw [decode_of_readHeader hh, Option.some.injEq]
  exact readImage_notEightBits_iff g magicNumber hd

/-- Witness of `colour_depth_iff`: a header with `maxColor = 256`. -/
theorem colour_depth_iff_witness :
    readHeader 1 zeroed (bytes "P6\n1 1\n256\nabc") =
        some (Sum.inr (6, ⟨1, 1, 256, 3, [97, 98, 99]⟩)) ∧
      (decode 1 zeroed (bytes "P6\n1 1\n256\nabc") =
          some (Outcome.exitFailure Diagnostic.notEightBits) ↔
        ((256 : Int) ≤ 0 ∨ (256 : Int) > 255)) :=
  ⟨rfl, colour_depth_iff 1 zeroed (bytes "P6\n1 1\n256\nabc") 6 ⟨1, 1, 256, 3, [97, 98, 99]⟩
    rfl rfl⟩

/-- Claim C7, as amended. When loading succeeds, the block handed on has as many bytes as the
`int` expression `width*height*3` evaluates to in 32-bit arithmetic, for the `width` and
`height` stored in the `Pixmap`; that is the mathematical product whenever the product lies
between 0 and 2147483647. -/
theorem loaded_length (fuel : Nat) (g : Indeterminate) (source : List Nat) (pm : Pixmap)
    (h : decode fuel g source = some (Outcome.loaded pm)) :
    (pm.image.length : Int) = imul (imul pm.width pm.height) 3 ∧
      (0 ≤ pm.width * pm.height * 3 → pm.width * pm.height * 3 < 2147483648 →
        (pm.image.length : Int) = pm.width * pm.height * 3) := by
  obtain ⟨mn, hd, _, hi⟩ := decode_loaded fuel g source pm h
  obtain ⟨hw, hh, hl⟩ := readImage_loaded_length g mn hd pm hi
  rw [hw, hh]
  refine ⟨hl, fun h0 h1 => ?_⟩
  rw [hl]
  unfold imul
  generalize hd.width * hd.height = p at h0 h1
  rw [wrapInt_of_range p (by omega) (by omega), wrapInt_of_range (p * 3) (by omega) (by omega)]

/-- Witness of `loaded_length`: the 3 by 2 binary image of scenario A. -/
theorem loaded_length_witness :
    decode 1 zeroed (bytes "P6\n3 2\n255\nabcdefghijklmnopqr") =
        some (Outcome.loaded ⟨3, 2, 6, bytes "abcdefghijklmnopqr"⟩) ∧
      (((bytes "abcdefghijklmnopqr").length : Int) = imul (imul 3 2) 3 ∧
        ((0 : Int) ≤ 3 * 2 * 3 → (3 : Int) * 2 * 3 < 2147483648 →
          ((bytes "abcdefghijklmnopqr").length : Int) = 3 * 2 * 3)) :=
  ⟨rfl, loaded_length 1 zeroed (bytes "P6\n3 2\n255\nabcdefghijklmnopqr")
    ⟨3, 2, 6, bytes "abcdefghijklmnopqr"⟩ rfl⟩

theorem decode_wrapped_header (fuel : Nat) (g : Indeterminate) :
    decode (fuel + 1) g (bytes "P6\n1431655766 1\n255\nab") =
      some (Outcome.loaded ⟨1431655766, 1, 6, [97, 98]⟩) := by
  have h1 : readHeader (fuel + 1) g (bytes "P6\n1431655766 1\n255\nab") =
      some (Sum.inr (6, scanHeader g.width g.height g.maxColor
        (bytes "1431655766 1\n255\nab"))) := rfl
  have h2 : scanHeader g.width g.height g.maxColor (bytes "1431655766 1\n255\nab") =
      ⟨1431655766, 1, 255, 3, [97, 98]⟩ := rfl
  rw [decode_of_readHeader h1, h2]
  rfl

/-- Counterexample to claim C7 as stated: the header `1431655766 1` followed by two bytes
loads successfully with a block of 2 bytes, while `width*height*3` is 4294967298. -/
theorem loaded_length_counterexample :
    decode 1 zeroed (bytes "P6\n1431655766 1\n255\nab") =
        some (Outcome.loaded ⟨1431655766, 1, 6, [97, 98]⟩) ∧
      (([97, 98] : List Nat).length : Int) ≠ 1431655766 * 1 * 3 :=
  ⟨decode_wrapped_header 0 zeroed, by decide⟩

/-- Claim C8, as amended. The loader never tests the sign of `width` or `height`; what stops
it is the allocation: when the `int` product `width*height*3` of a header is negative, loading
ends with an `exit(-1)` (colour depth or allocation) and hands nothing on. -/
theorem negative_size_rejected (fuel : Nat) (g : Indeterminate) (source : List Nat)
    (magicNumber : Int) (hd : Header)
    (hh : readHeader fuel g source = some (Sum.inr (magicNumber, hd)))
    (hneg : imul (imul hd.width hd.height) 3 < 0) :
    decode fuel g source = some (Outcome.exitFailure Diagnostic.notEightBits) ∨
      decode fuel g source = some (Outcome.exitFailure Diagnostic.cannotAllocate) := by
  rw [decode_of_readHeader hh]
  rcases readImage_negative g magicNumber hd hneg with h | h
  · exact Or.inl (by rw [h])
  · exact Or.inr (by rw [h])

/-- Witness of `negative_size_rejected`: an ASCII file declaring `width = -1`, `height = 1`. -/
theorem negative_size_rejected_witness :
    readHeader 1 zeroed (bytes "P3\n-1 1\n255\n") = some (Sum.inr (3, ⟨-1, 1, 255, 3, []⟩)) ∧
      imul (imul (-1) 1) 3 < 0 ∧
      (decode 1 zeroed (bytes "P3\n-1 1\n255\n") =
          some (Outcome.exitFailure Diagnostic.notEightBits) ∨
        decode 1 zeroed (bytes "P3\n-1 1\n255\n") =
          some (Outcome.exitFailure Diagnostic.cannotAllocate)) :=
  ⟨rfl, by decide,
    negative_size_rejected 1 zeroed (bytes "P3\n-1 1\n255\n") 3 ⟨-1, 1, 255, 3, []⟩ (by rfl)
      (by decide)⟩

theorem decode_negative_dimensions (fuel : Nat) (g : Indeterminate) :
    decode (fuel + 1) g (bytes "P6\n-1 -3\n255\nabcdefghi") =
        some (Outcome.loaded ⟨-1, -3, 6, bytes "abcdefghi"⟩) ∧
      decode (fuel + 1) g (bytes "P3\n-1 -1\n255\n") =
        some (Outcome.loaded ⟨-1, -1, 3, [g.heap 0, g.heap 1, g.heap 2]⟩) :=
  ⟨rfl, rfl⟩

/-- Counterexample to claim C8 as stated: a binary file whose header declares `width = -1` and
`height = -3` loads successfully, and so does an ASCII file declaring `-1 -1`. -/
theorem positive_dimensions_counterexample :
    decode 1 zeroed (bytes "P6\n-1 -3\n255\nabcdefghi") =
        some (Outcome.loaded ⟨-1, -3, 6, bytes "abcdefghi"⟩) ∧
      decode 1 zeroed (bytes "P3\n-1 -1\n255\n") =
        some (Outcome.loaded ⟨-1, -1, 3, [0, 0, 0]⟩) :=
  decode_negative_dimensions 0 zeroed

theorem decode_eval {fuel : Nat} {g : Indeterminate} {source : List Nat} (magicNumber : Int)
    (s : List Nat) (hd : Header) {out : Outcome}
    (h1 : readHeader fuel g source =
      some (Sum.inr (magicNumber, scanHeader g.width g.height g.maxColor s)))
    (h2 : scanHeader g.width g.height g.maxColor s = hd)
    (h3 : readImage g magicNumber hd = out) :
    decode fuel g source = some out := by
  rw [decode_of_readHeader h1, h2, h3]

/-- Claim C2, at a failing input. When the first of the 18 data bytes is a space, the final
white-space directive of the header `fscanf` consumes it, `fread` gets 17 bytes and loading
ends with `exit(-1)`; the same header followed by 18 letters loads. -/
theorem header_scan_consumes_data :
    ∀ (fuel : Nat) (g : Indeterminate),
      decode (fuel + 1) g (bytes "P6\n3 2\n255\n" ++ 32 :: bytes "bcdefghijklmnopqr") =
          some (Outcome.exitFailure Diagnostic.couldNotReadImage) ∧
        decode (fuel + 1) g (bytes "P6\n3 2\n255\n" ++ 97 :: bytes "bcdefghijklmnopqr") =
          some (Outcome.loaded ⟨3, 2, 6, 97 :: bytes "bcdefghijklmnopqr"⟩) :=
  fun _ _ =>
    ⟨decode_eval 6 (bytes "3 2\n255\n bcdefghijklmnopqr")
        ⟨3, 2, 255, 3, bytes "bcdefghijklmnopqr"⟩ rfl rfl rfl,
      decode_eval 6 (bytes "3 2\n255\nabcdefghijklmnopqr")
        ⟨3, 2, 255, 3, bytes "abcdefghijklmnopqr"⟩ rfl rfl rfl⟩

/-- Claim C3, at a failing input. After the first comment line `c` holds the newline, so the
outer loop stops: with two comment lines the header `fscanf` meets `#`, assigns nothing, and
`width`, `height`, `maxColor` keep their indeterminate values; the result is never the image
that the file without comments gives. One comment line is skipped correctly. -/
theorem second_comment_not_skipped :
    ∀ (fuel : Nat) (g : Indeterminate),
      decode (fuel + 3) g (bytes "P6\n#a\n#b\n1 1\n255\nabc") =
          some (readImage g 6
            ⟨g.width, g.height, g.maxColor, 0, bytes "#b\n1 1\n255\nabc"⟩) ∧
        decode (fuel + 3) g (bytes "P6\n#a\n#b\n1 1\n255\nabc") ≠
          some (Outcome.loaded ⟨1, 1, 6, bytes "abc"⟩) ∧
        decode (fuel + 3) g (bytes "P6\n#a\n1 1\n255\nabc") =
          some (Outcome.loaded ⟨1, 1, 6, bytes "abc"⟩) ∧
        decode (fuel + 3) g (bytes "P6\n1 1\n255\nabc") =
          some (Outcome.loaded ⟨1, 1, 6, bytes "abc"⟩) := by
  intro fuel g
  have h1 : decode (fuel + 3) g (bytes "P6\n#a\n#b\n1 1\n255\nabc") =
      some (readImage g 6 ⟨g.width, g.height, g.maxColor, 0, bytes "#b\n1 1\n255\nabc"⟩) :=
    decode_eval 6 (bytes "\n#b\n1 1\n255\nabc") _ rfl rfl rfl
  refine ⟨h1, ?_,
    decode_eval 6 (bytes "\n1 1\n255\nabc") ⟨1, 1, 255, 3, bytes "abc"⟩ rfl rfl rfl,
    decode_eval 6 (bytes "1 1\n255\nabc") ⟨1, 1, 255, 3, bytes "abc"⟩ rfl rfl rfl⟩
  rw [h1]
  intro h
  have h2 := Option.some.inj h
  obtain ⟨hw, hh, _⟩ := readImage_loaded_length _ _ _ _ h2
  simp only at hw hh
  unfold readImage at h2
  simp only [← hw, ← hh] at h2
  split at h2
  · cases h2
  · split at h2
    · cases h2
    · rw [if_pos trivial] at h2
      split at h2
      · cases h2
      · injection h2 with h5
        injection h5 with _ _ _ h6
        have h7 := congrArg List.head? h6
        exact (show (some 35 : Option Nat) ≠ some 97 by decide) h7

/-- Claim C4, at failing inputs. In the P3 branch the result of `fscanf` is not looked at: with
two tokens for three samples, or with a token that is no number, `pixel` keeps its last value,
the block is filled with it and handed on. -/
theorem ascii_short_data_loaded :
    ∀ (fuel : Nat) (g : Indeterminate),
      decode (fuel + 1) g (bytes "P3\n1 1\n255\n7 8") =
          some (Outcome.loaded ⟨1, 1, 3, [7, 8, 8]⟩) ∧
        decode (fuel + 1) g (bytes "P3\n1 1\n255\n7 x 9") =
          some (Outcome.loaded ⟨1, 1, 3, [7, 7, 7]⟩) ∧
        decode (fuel + 1) g (bytes "P3\n1 1\n255\n") =
          some (Outcome.loaded ⟨1, 1, 3, [toUChar g.pixel, toUChar g.pixel, toUChar g.pixel]⟩) :=
  fun _ _ =>
    ⟨decode_eval 3 (bytes "1 1\n255\n7 8") ⟨1, 1, 255, 3, bytes "7 8"⟩ rfl rfl rfl,
      decode_eval 3 (bytes "1 1\n255\n7 x 9") ⟨1, 1, 255, 3, bytes "7 x 9"⟩ rfl rfl rfl,
      decode_eval 3 (bytes "1 1\n255\n") ⟨1, 1, 255, 3, []⟩ rfl rfl rfl⟩

/-! ## Reading back what the format prescribes -/

theorem scanDigits_stops (r : List Nat) (acc n : Nat) (h : stops r) :
    scanDigits r acc n = (acc, n, r) := by
  cases r with
  | nil => rfl
  | cons b t =>
    have hb : isdigit b = false := h b (by simp)
    rw [scanDigits_cons, hb]
    rfl

theorem decimalAux_zero (n : Nat) : decimalAux 0 n = [48 + n % 10] := rfl

theorem decimalAux_succ (fuel n : Nat) :
    decimalAux (fuel + 1) n =
      if n < 10 then [48 + n] else decimalAux fuel (n / 10) ++ [48 + n % 10] := rfl

theorem isdigit_add (d : Nat) (h : d < 10) : isdigit (48 + d) = true := by
  simp [isdigit]; omega

theorem decimalAux_head (fuel n : Nat) :
    ∃ d t, decimalAux fuel n = (48 + d) :: t ∧ d < 10 := by
  induction fuel generalizing n with
  | zero => exact ⟨n % 10, [], rfl, Nat.mod_lt _ (by decide)⟩
  | succ fuel ih =>
    rw [decimalAux_succ]
    split
    · rename_i h; exact ⟨n, [], rfl, h⟩
    · obtain ⟨d, t, ht, hd⟩ := ih (n / 10)
      exact ⟨d, t ++ [48 + n % 10], by rw [ht]; rfl, hd⟩

theorem decimal_head (n : Nat) : ∃ d t, decimal n = (48 + d) :: t ∧ d < 10 :=
  decimalAux_head n n

theorem scanDigits_decimalAux (fuel : Nat) : ∀ (n : Nat) (_ : n ≤ fuel) (r : List Nat)
    (acc k : Nat),
    scanDigits (decimalAux fuel n ++ r) acc k =
      scanDigits r (acc * 10 ^ (decimalAux fuel n).length + n) (k + (decimalAux fuel n).length) := by
  induction fuel with
  | zero =>
    intro n hn r acc k
    have : n = 0 := by omega
    subst this
    rw [decimalAux_zero]
    simp only [List.singleton_append, List.length_singleton, pow_one]
    rw [scanDigits_cons, isdigit_add 0 (by decide)]
    simp
  | succ fuel ih =>
    intro n hn r acc k
    rw [decimalAux_succ]
    split
    · rename_i h
      simp only [List.singleton_append, List.length_singleton, pow_one]
      rw [scanDigits_cons, isdigit_add n h]
      simp
    · rename_i h
      rw [List.append_assoc, ih (n / 10) (by omega)]
      simp only [List.singleton_append, List.length_append, List.length_singleton]
      rw [scanDigits_cons, isdigit_add _ (Nat.mod_lt _ (by decide))]
      simp only [if_true]
      have e1 : (acc * 10 ^ (decimalAux fuel (n / 10)).length + n / 10) * 10 + (48 + n % 10 - 48) =
          acc * 10 ^ ((decimalAux fuel (n / 10)).length + 1) + n := by
        rw [pow_succ]
        have := Nat.div_add_mod n 10
        have e2 : 48 + n % 10 - 48 = n % 10 := by omega
        rw [e2]
        nlinarith
      rw [e1, Nat.add_assoc]

theorem scanDigits_decimal (n : Nat) (r : List Nat) (h : stops r) :
    ∃ l, scanDigits (decimal n ++ r) 0 0 = (n, l + 1, r) := by
  obtain ⟨d, t, ht, _⟩ := decimal_head n
  refine ⟨t.length, ?_⟩
  unfold decimal at ht ⊢
  rw [scanDigits_decimalAux n n (le_refl n), scanDigits_stops _ _ _ h, ht]
  simp

theorem isspace_digit (d : Nat) (h : d < 10) : isspace (48 + d) = false := by
  simp [isspace]; omega

theorem skipSpace_decimal (n : Nat) (r : List Nat) :
    skipSpace (decimal n ++ r) = decimal n ++ r := by
  obtain ⟨d, t, ht, hd⟩ := decimal_head n
  rw [ht, List.cons_append, skipSpace_cons, isspace_digit d hd]
  rfl

theorem scanInt_decimal (n : Nat) (r : List Nat) (h : stops r) :
    scanInt (decimal n ++ r) = (some (storeInt n), r) := by
  obtain ⟨l, hl⟩ := scanDigits_decimal n r h
  obtain ⟨d, t, ht, hd⟩ := decimal_head n
  unfold scanInt
  rw [skipSpace_decimal]
  rw [ht, List.cons_append] at hl ⊢
  simp only
  rw [if_neg (by omega), if_neg (by omega), hl]
  rfl

theorem skipSpace_space (b : Nat) (s : List Nat) (h : isspace b = true) :
    skipSpace (b :: s) = skipSpace s := by
  rw [skipSpace_cons, if_pos h]

theorem skipSpace_stop (r : List Nat) (h : ∀ b ∈ r.head?, isspace b = false) :
    skipSpace r = r := by
  cases r with
  | nil => rfl
  | cons b t => rw [skipSpace_cons, h b (by simp)]; rfl

theorem skipSpace_append (sep r : List Nat) (h : sep.all isspace = true) :
    skipSpace (sep ++ r) = skipSpace r := by
  induction sep with
  | nil => rfl
  | cons b t ih =>
    simp only [List.all_cons, Bool.and_eq_true] at h
    rw [List.cons_append, skipSpace_cons, h.1, if_pos rfl, ih h.2]

theorem stops_cons_space (b : Nat) (t : List Nat) (h : isspace b = true) : stops (b :: t) := by
  intro c hc
  simp only [List.head?_cons, Option.mem_def, Option.some.injEq] at hc
  subst hc
  simp only [isspace, Bool.or_eq_true, beq_iff_eq, Bool.and_eq_true, decide_eq_true_eq] at h
  simp only [isdigit, Bool.and_eq_false_imp, decide_eq_true_eq, decide_eq_false_iff_not]
  omega

theorem scanHeader_headerLines (w0 h0 m0 : Int) (w h m : Nat) (data : List Nat)
    (hw : w < 2147483648) (hh : h < 2147483648) (hm : m < 2147483648) :
    scanHeader w0 h0 m0 (headerLines w h m ++ data) = ⟨w, h, m, 3, skipSpace data⟩ := by
  have e : headerLines w h m ++ data =
      decimal w ++ (32 :: (decimal h ++ (10 :: (decimal m ++ (10 :: data))))) := by
    simp [headerLines]
  rw [e]
  unfold scanHeader
  rw [scanInt_decimal w _ (stops_cons_space 32 _ rfl)]
  simp only
  rw [skipSpace_space 32 _ rfl, skipSpace_decimal,
    scanInt_decimal h _ (stops_cons_space 10 _ rfl)]
  simp only
  rw [skipSpace_space 10 _ rfl, skipSpace_decimal,
    scanInt_decimal m _ (stops_cons_space 10 _ rfl)]
  simp only
  rw [skipSpace_space 10 _ rfl, storeInt_of_range w (by omega) (by omega),
    storeInt_of_range h (by omega) (by omega), storeInt_of_range m (by omega) (by omega)]

theorem readHeader_digits (fuel : Nat) (g : Indeterminate) (mc d : Nat) (rest : List Nat)
    (hmc : mc = 51 ∨ mc = 54) (hd : d < 10) :
    readHeader (fuel + 1) g (80 :: mc :: 10 :: (48 + d) :: rest) =
      some (Sum.inr ((mc : Int) - 48,
        scanHeader g.width g.height g.maxColor ((48 + d) :: rest))) := by
  have hm : scanMagic g.c (80 :: mc :: 10 :: (48 + d) :: rest) =
      (toChar mc, skipSpace (10 :: (48 + d) :: rest)) := rfl
  have hs : skipSpace (10 :: (48 + d) :: rest) = (48 + d) :: rest := by
    rw [skipSpace_space 10 _ rfl, skipSpace_cons, isspace_digit d hd]; rfl
  have hg : getc ((48 + d) :: rest) = (((48 + d : Nat) : Int), rest) := rfl
  unfold readHeader
  simp only [hm, hs, hg]
  rw [toChar_of_lt mc (by omega), toChar_of_lt (48 + d) (by omega), skipComments_succ,
    if_neg (by omega), if_neg (by omega)]
  simp only
  have hu : ungetc ((48 + d : Nat) : Int) rest = (48 + d) :: rest := by
    unfold ungetc EOF
    rw [if_neg (by omega), toUChar_of_lt _ (by omega)]
  rw [hu]

theorem imul_of_range (a b : Int) (h1 : -2147483648 ≤ a * b) (h2 : a * b < 2147483648) :
    imul a b = a * b := wrapInt_of_range _ h1 h2

theorem iadd_of_range (a b : Int) (h1 : -2147483648 ≤ a + b) (h2 : a + b < 2147483648) :
    iadd a b = a + b := wrapInt_of_range _ h1 h2

theorem size_of_range (w h : Nat) (hw : 0 < w) (hh : 0 < h) (hsz : w * h * 3 < 2147483648) :
    imul (imul (w : Int) (h : Int)) 3 = ((w * h * 3 : Nat) : Int) := by
  have h1 : w * h < 2147483648 := by omega
  have h2 : (0 : Int) ≤ (w : Int) * h := by positivity
  have h3 : (w : Int) * h < 2147483648 := by exact_mod_cast h1
  have h4 : (w : Int) * h * 3 < 2147483648 := by exact_mod_cast hsz
  rw [imul_of_range (w : Int) h (by omega) h3, imul_of_range _ 3 (by omega) h4]
  push_cast
  ring

theorem readImage_binary (g : Indeterminate) (w h m a : Nat) (V : List Nat)
    (hw : 0 < w) (hh : 0 < h) (hsz : w * h * 3 < 2147483648) (hm : 1 ≤ m ∧ m ≤ 255)
    (hlen : V.length = w * h * 3) :
    readImage g 6 ⟨w, h, m, a, V⟩ = Outcome.loaded ⟨w, h, 6, V⟩ := by
  unfold readImage
  simp only
  rw [if_neg (by omega), size_of_range w h hw hh hsz]
  have hf : mallocFails ((w * h * 3 : Nat) : Int) = false := by
    rw [mallocFails_eq_false _ (by omega) (by omega)]
    omega
  rw [hf]
  simp only [Bool.false_eq_true, if_false, if_true, Int.toNat_ofNat]
  rw [← hlen, List.take_length, if_neg (by simp)]
  have hd : List.drop V.length (malloc g.heap (V.length : Int)) = [] := by
    apply List.drop_eq_nil_of_le
    rw [malloc_length]
    simp
  rw [hd, List.append_nil]

theorem asciiSamples_cons (p : Nat × List Nat) (rest : List (Nat × List Nat)) :
    asciiSamples (p :: rest) = decimal p.1 ++ (p.2 ++ asciiSamples rest) := rfl

theorem separated_cons (p : Nat × List Nat) (rest : List (Nat × List Nat)) :
    separated (p :: rest) =
      (p.2.all isspace && (!p.2.isEmpty || rest.isEmpty) && separated rest) := rfl

theorem separated_tail {p : Nat × List Nat} {rest : List (Nat × List Nat)}
    (h : separated (p :: rest) = true) : separated rest = true := by
  rw [separated_cons] at h
  simp only [Bool.and_eq_true] at h
  exact h.2

theorem asciiSamples_head (items : List (Nat × List Nat)) :
    ∀ b ∈ (asciiSamples items).head?, isspace b = false := by
  cases items with
  | nil => intro b hb; simp [asciiSamples] at hb
  | cons p rest =>
    intro b hb
    obtain ⟨d, t, ht, hd⟩ := decimal_head p.1
    rw [asciiSamples_cons, ht] at hb
    simp only [List.cons_append, List.head?_cons, Option.mem_def, Option.some.injEq] at hb
    rw [← hb]
    exact isspace_digit d hd

theorem stops_separator (p : Nat × List Nat) (rest : List (Nat × List Nat))
    (h : separated (p :: rest) = true) : stops (p.2 ++ asciiSamples rest) := by
  rw [separated_cons] at h
  simp only [Bool.and_eq_true, Bool.or_eq_true, Bool.not_eq_true', List.isEmpty_eq_true,
    List.isEmpty_eq_false] at h
  obtain ⟨⟨hall, hne⟩, _⟩ := h
  cases hp : p.2 with
  | nil =>
    rw [hp] at hne
    have hr : rest = [] := by
      rcases hne with h1 | h1
      · exact absurd rfl h1
      · exact h1
    subst hr
    intro b hb
    simp [asciiSamples] at hb
  | cons b t =>
    rw [hp] at hall
    simp only [List.all_cons, Bool.and_eq_true] at hall
    exact stops_cons_space b _ hall.1

theorem scanPixel_sample (pixel : Int) (p : Nat × List Nat) (rest : List (Nat × List Nat))
    (hs : separated (p :: rest) = true) (hv : p.1 < 256) :
    scanPixel pixel (asciiSamples (p :: rest)) = ((p.1 : Int), asciiSamples rest) := by
  have hall : p.2.all isspace = true := by
    rw [separated_cons] at hs
    simp only [Bool.and_eq_true] at hs
    exact hs.1.1
  rw [asciiSamples_cons]
  unfold scanPixel
  rw [scanInt_decimal p.1 _ (stops_separator p rest hs)]
  simp only
  rw [skipSpace_append _ _ hall, skipSpace_stop _ (asciiSamples_head rest),
    storeInt_of_range _ (by omega) (by omega)]

theorem store_append (pre junk : List Nat) (x : Nat) (v : Int) :
    store (pre ++ x :: junk) (pre.length : Int) v = some (pre ++ toUChar v :: junk) := by
  unfold store
  rw [if_pos (by simp)]
  simp

theorem readSample_ascii (pixel : Int) (p : Nat × List Nat) (rest : List (Nat × List Nat))
    (pre junk : List Nat) (x : Nat) (hs : separated (p :: rest) = true) (hv : p.1 < 256) :
    readSample (pre.length : Int) ⟨pixel, asciiSamples (p :: rest), pre ++ x :: junk⟩ =
      some ⟨(p.1 : Int), asciiSamples rest, pre ++ p.1 :: junk⟩ := by
  unfold readSample
  simp only
  rw [scanPixel_sample pixel p rest hs hv, store_append, toUChar_of_lt _ hv]

theorem readRow_ascii (w i : Nat) : ∀ (n j : Nat) (items : List (Nat × List Nat))
    (pre junk : List Nat) (pixel : Int),
    pre.length = 3 * (i * w + j) → 3 * n ≤ items.length → 3 * n ≤ junk.length →
    pre.length + 3 * n < 2147483648 → separated items = true → (∀ p ∈ items, p.1 < 256) →
    ∃ pixel1, readRow w i n j ⟨pixel, asciiSamples items, pre ++ junk⟩ =
      some ⟨pixel1, asciiSamples (items.drop (3 * n)),
        pre ++ ((items.take (3 * n)).map Prod.fst ++ junk.drop (3 * n))⟩ := by
  intro n
  induction n with
  | zero =>
    intro j items pre junk pixel _ _ _ _ _ _
    exact ⟨pixel, by simp [readRow_zero]⟩
  | succ n ih =>
    intro j items pre junk pixel hpre hit hjk hlt hs hv
    obtain ⟨a, items1, rfl⟩ : ∃ a l, items = a :: l := by
      cases items with
      | nil => simp at hit
      | cons a l => exact ⟨a, l, rfl⟩
    obtain ⟨b, items2, rfl⟩ : ∃ a l, items1 = a :: l := by
      cases items1 with
      | nil => simp at hit; omega
      | cons a l => exact ⟨a, l, rfl⟩
    obtain ⟨c, items3, rfl⟩ : ∃ a l, items2 = a :: l := by
      cases items2 with
      | nil => simp at hit; omega
      | cons a l => exact ⟨a, l, rfl⟩
    obtain ⟨x, junk1, rfl⟩ : ∃ a l, junk = a :: l := by
      cases junk with
      | nil => simp at hjk
      | cons a l => exact ⟨a, l, rfl⟩
    obtain ⟨y, junk2, rfl⟩ : ∃ a l, junk1 = a :: l := by
      cases junk1 with
      | nil => simp at hjk; omega
      | cons a l => exact ⟨a, l, rfl⟩
    obtain ⟨z, junk3, rfl⟩ : ∃ a l, junk2 = a :: l := by
      cases junk2 with
      | nil => simp at hjk; omega
      | cons a l => exact ⟨a, l, rfl⟩
    simp only [List.length_cons] at hit hjk
    have hiw : i * w ≤ pre.length := by rw [hpre]; omega
    have hiwj : (i : Int) * w * 3 + 3 * j = (pre.length : Int) := by
      rw [hpre]; push_cast; ring
    have e0 : iadd (imul (imul (i : Int) w) 3) (imul 3 j) = (pre.length : Int) := by
      have h1 : (0 : Int) ≤ (i : Int) * w := by positivity
      have h2 : (i : Int) * w ≤ pre.length := by exact_mod_cast hiw
      rw [imul_of_range (i : Int) w (by omega) (by omega),
        imul_of_range _ 3 (by omega) (by omega), imul_of_range 3 j (by omega) (by omega),
        iadd_of_range _ _ (by omega) (by omega)]
      exact hiwj
    have e1 : iadd (pre.length : Int) 1 = ((pre ++ [a.1]).length : Int) := by
      rw [iadd_of_range _ _ (by omega) (by omega)]; simp
    have e2 : iadd (pre.length : Int) 2 = ((pre ++ [a.1] ++ [b.1]).length : Int) := by
      rw [iadd_of_range _ _ (by omega) (by omega)]; simp
    have hA : pre ++ a.1 :: y :: z :: junk3 = (pre ++ [a.1]) ++ y :: z :: junk3 := by simp
    have hB : pre ++ [a.1] ++ b.1 :: z :: junk3 = (pre ++ [a.1] ++ [b.1]) ++ z :: junk3 := by
      simp
    have hC : pre ++ [a.1] ++ [b.1] ++ c.1 :: junk3 = (pre ++ [a.1] ++ [b.1] ++ [c.1]) ++ junk3 := by
      simp
    have hs1 := separated_tail hs
    have hs2 := separated_tail hs1
    have hs3 := separated_tail hs2
    rw [readRow_succ, e0, e1, e2, readSample_ascii pixel a _ pre _ x hs (hv a (by simp))]
    simp only
    rw [hA, readSample_ascii _ b _ (pre ++ [a.1]) _ y hs1 (hv b (by simp))]
    simp only
    rw [hB, readSample_ascii _ c _ (pre ++ [a.1] ++ [b.1]) _ z hs2 (hv c (by simp))]
    simp only
    rw [hC]
    have hj : (j : Int) + 1 = ((j + 1 : Nat) : Int) := by push_cast; rfl
    rw [hj]
    obtain ⟨pixel1, h1⟩ := ih (j + 1) items3 (pre ++ [a.1] ++ [b.1] ++ [c.1]) junk3 c.1
      (by simp; omega) (by omega) (by omega) (by simp; omega) hs3
      (fun p hp => hv p (by simp [hp]))
    refine ⟨pixel1, ?_⟩
    rw [h1]
    have e3 : 3 * (n + 1) = 3 * n + 1 + 1 + 1 := by ring
    rw [e3]
    simp

theorem separated_drop (k : Nat) : ∀ (items : List (Nat × List Nat)),
    separated items = true → separated (items.drop k) = true := by
  induction k with
  | zero => intro items h; simpa using h
  | succ k ih =>
    intro items h
    cases items with
    | nil => simpa using h
    | cons p rest => simpa using ih rest (separated_tail h)

theorem readRows_ascii (w : Nat) : ∀ (n i : Nat) (items : List (Nat × List Nat))
    (pre junk : List Nat) (pixel : Int),
    pre.length = 3 * (i * w) → 3 * w * n ≤ items.length → 3 * w * n ≤ junk.length →
    pre.length + 3 * w * n < 2147483648 → separated items = true → (∀ p ∈ items, p.1 < 256) →
    ∃ pixel1, readRows w n i ⟨pixel, asciiSamples items, pre ++ junk⟩ =
      some ⟨pixel1, asciiSamples (items.drop (3 * w * n)),
        pre ++ ((items.take (3 * w * n)).map Prod.fst ++ junk.drop (3 * w * n))⟩ := by
  intro n
  induction n with
  | zero =>
    intro i items pre junk pixel _ _ _ _ _ _
    exact ⟨pixel, by simp [readRows_zero]⟩
  | succ n ih =>
    intro i items pre junk pixel hpre hit hjk hlt hs hv
    have hmul : 3 * w * (n + 1) = 3 * w + 3 * w * n := by ring
    rw [hmul] at hit hjk hlt
    obtain ⟨p1, h1⟩ := readRow_ascii w i w 0 items pre junk pixel (by rw [hpre]; rfl)
      (by omega) (by omega) (by omega) hs hv
    rw [readRows_succ, Int.toNat_ofNat]
    rw [Nat.cast_zero] at h1
    rw [h1]
    simp only
    have hi : (i : Int) + 1 = ((i + 1 : Nat) : Int) := by push_cast; rfl
    rw [hi, ← List.append_assoc]
    obtain ⟨p2, h2⟩ := ih (i + 1) (items.drop (3 * w))
      (pre ++ (items.take (3 * w)).map Prod.fst) (junk.drop (3 * w)) p1
      (by simp only [List.length_append, List.length_map, List.length_take]
          rw [hpre, Nat.min_eq_left (by omega)]; ring)
      (by simp only [List.length_drop]; omega)
      (by simp only [List.length_drop]; omega)
      (by simp only [List.length_append, List.length_map, List.length_take]
          rw [Nat.min_eq_left (by omega)]; omega)
      (separated_drop _ _ hs)
      (fun p hp => hv p (List.mem_of_mem_drop hp))
    refine ⟨p2, ?_⟩
    rw [h2, hmul]
    simp only [List.drop_drop, List.append_assoc, Reader.mk.injEq, Option.some.injEq,
      true_and]
    rw [List.take_add, List.map_append, List.append_assoc]

theorem readImage_ascii (g : Indeterminate) (w h m a : Nat) (items : List (Nat × List Nat))
    (hw : 0 < w) (hh : 0 < h) (hsz : w * h * 3 < 2147483648) (hm : 1 ≤ m ∧ m ≤ 255)
    (hlen : items.length = w * h * 3) (hs : separated items = true)
    (hv : ∀ p ∈ items, p.1 < 256) :
    readImage g 3 ⟨w, h, m, a, asciiSamples items⟩ =
      Outcome.loaded ⟨w, h, 3, items.map Prod.fst⟩ := by
  unfold readImage
  simp only
  rw [if_neg (by omega), size_of_range w h hw hh hsz]
  have hf : mallocFails ((w * h * 3 : Nat) : Int) = false := by
    rw [mallocFails_eq_false _ (by omega) (by omega)]
    omega
  rw [hf]
  simp only [Bool.false_eq_true, if_false, if_true, Int.toNat_ofNat]
  rw [if_neg (by decide)]
  have e : 3 * w * h = w * h * 3 := by ring
  obtain ⟨p1, h1⟩ := readRows_ascii w h 0 items [] (malloc g.heap ((w * h * 3 : Nat) : Int))
    g.pixel (by simp) (by omega) (by rw [malloc_length]; simp; omega) (by simp; omega) hs hv
  rw [Nat.cast_zero, List.nil_append] at h1
  rw [h1]
  simp only [List.nil_append]
  rw [e, ← hlen, List.take_length]
  have hd : List.drop items.length (malloc g.heap (items.length : Int)) = [] := by
    apply List.drop_eq_nil_of_le
    rw [malloc_length]
    simp
  rw [hd, List.append_nil]

theorem decode_file (fuel : Nat) (g : Indeterminate) (mc w h m : Nat) (data : List Nat)
    (hmc : mc = 51 ∨ mc = 54)
    (hw : w < 2147483648) (hh : h < 2147483648) (hm : m < 2147483648) :
    decode (fuel + 1) g (80 :: mc :: 10 :: (headerLines w h m ++ data)) =
      some (readImage g ((mc : Int) - 48) ⟨w, h, m, 3, skipSpace data⟩) := by
  obtain ⟨d, t, ht, hd⟩ := decimal_head w
  have e : headerLines w h m ++ data =
      (48 + d) :: (t ++ (32 :: (decimal h ++ (10 :: (decimal m ++ (10 :: data)))))) := by
    simp [headerLines, ht]
  have h1 := readHeader_digits fuel g mc d
    (t ++ (32 :: (decimal h ++ (10 :: (decimal m ++ (10 :: data)))))) hmc hd
  rw [← e] at h1
  rw [decode_of_readHeader h1, scanHeader_headerLines _ _ _ w h m data hw hh hm]

/-- Claim C1, as amended. For `w > 0`, `h > 0` with `w*h*3 < 2^31`, `m` in 1..255 and `w*h*3`
byte values with white-space separators (only the last separator may be empty), the ASCII file
loads with width `w`, height `h` and exactly these values as the block; the binary file of the
same values loads to the same width, height and block whenever its first data byte is not a
white-space character. -/
theorem binary_ascii_agree (w h m : Nat) (items : List (Nat × List Nat)) (fuel : Nat)
    (g : Indeterminate) (hw : 0 < w) (hh : 0 < h) (hsz : w * h * 3 < 2147483648)
    (hm : 1 ≤ m ∧ m ≤ 255) (hlen : items.length = w * h * 3)
    (hv : ∀ p ∈ items, p.1 < 256) (hs : separated items = true) :
    decode (fuel + 1) g (p3File w h m items) =
        some (Outcome.loaded ⟨w, h, 3, items.map Prod.fst⟩) ∧
      ((∀ b ∈ (items.map Prod.fst).head?, isspace b = false) →
        decode (fuel + 1) g (p6File w h m (items.map Prod.fst)) =
          some (Outcome.loaded ⟨w, h, 6, items.map Prod.fst⟩)) := by
  have h1 : w ≤ w * h := Nat.le_mul_of_pos_right w hh
  have h2 : h ≤ w * h := Nat.le_mul_of_pos_left h hw
  constructor
  · unfold p3File
    rw [decode_file fuel g 51 w h m _ (Or.inl rfl) (by omega) (by omega) (by omega),
      skipSpace_stop _ (asciiSamples_head items)]
    exact congrArg some (readImage_ascii g w h m 3 items hw hh hsz hm hlen hs hv)
  · intro hb
    unfold p6File
    rw [decode_file fuel g 54 w h m _ (Or.inr rfl) (by omega) (by omega) (by omega),
      skipSpace_stop _ hb]
    exact congrArg some
      (readImage_binary g w h m 3 (items.map Prod.fst) hw hh hsz hm (by simpa using hlen))

/-- Witness of `binary_ascii_agree`: a 1 by 2 image, the values separated by spaces and
newlines, the last one ending the file. -/
theorem binary_ascii_agree_witness :
    decode 1 zeroed (p3File 1 2 255
        [(7, [32]), (8, [32]), (9, [10]), (200, [32, 32]), (0, [9]), (255, [])]) =
        some (Outcome.loaded ⟨1, 2, 3, [7, 8, 9, 200, 0, 255]⟩) ∧
      decode 1 zeroed (p6File 1 2 255 [7, 8, 9, 200, 0, 255]) =
        some (Outcome.loaded ⟨1, 2, 6, [7, 8, 9, 200, 0, 255]⟩) :=
  ⟨(binary_ascii_agree 1 2 255
      [(7, [32]), (8, [32]), (9, [10]), (200, [32, 32]), (0, [9]), (255, [])] 0 zeroed
      (by decide) (by decide) (by decide) (by decide) (by decide) (by decide) (by decide)).1,
    (binary_ascii_agree 1 2 255
      [(7, [32]), (8, [32]), (9, [10]), (200, [32, 32]), (0, [9]), (255, [])] 0 zeroed
      (by decide) (by decide) (by decide) (by decide) (by decide) (by decide) (by decide)).2
      (by decide)⟩

theorem decode_wrapped_size (fuel : Nat) (g : Indeterminate) (tail : List Nat) :
    decode (fuel + 1) g (p6File 1431655766 1 255 (0 :: 0 :: tail)) =
      some (Outcome.loaded ⟨1431655766, 1, 6, [0, 0]⟩) := by
  have hb : ∀ b ∈ (0 :: 0 :: tail).head?, isspace b = false := by
    intro b hb
    rw [List.head?_cons, Option.mem_def, Option.some.injEq] at hb
    rw [← hb]
    rfl
  unfold p6File
  rw [decode_file fuel g 54 _ _ _ _ (Or.inr rfl) (by omega) (by omega) (by omega),
    skipSpace_stop _ hb]
  rfl

theorem decode_leading_space (fuel : Nat) (g : Indeterminate) :
    decode (fuel + 1) g (p3File 1 1 255 [(32, [32]), (0, [32]), (0, [10])]) =
        some (Outcome.loaded ⟨1, 1, 3, [32, 0, 0]⟩) ∧
      decode (fuel + 1) g (p6File 1 1 255 [32, 0, 0]) =
        some (Outcome.exitFailure Diagnostic.couldNotReadImage) := by
  constructor
  · unfold p3File
    rw [decode_file fuel g 51 _ _ _ _ (Or.inl rfl) (by omega) (by omega) (by omega)]
    rfl
  · unfold p6File
    rw [decode_file fuel g 54 _ _ _ _ (Or.inr rfl) (by omega) (by omega) (by omega)]
    rfl

/-- Counterexample to claim C1 as stated. With `w = 1431655766`, `h = 1` and `w*h*3` zero
bytes the `int` product `width*height*3` is 2, and the binary file loads to a block of two
bytes; with `w = h = 1` and the values 32, 0, 0 the ASCII file loads to these values while the
binary file does not load. -/
theorem binary_ascii_agree_counterexample :
    ((0 :: 0 :: List.replicate 4294967296 0).length = 1431655766 * 1 * 3 ∧
        decode 1 zeroed (p6File 1431655766 1 255 (0 :: 0 :: List.replicate 4294967296 0)) =
          some (Outcome.loaded ⟨1431655766, 1, 6, [0, 0]⟩) ∧
        [0, 0] ≠ 0 :: 0 :: List.replicate 4294967296 0) ∧
      (decode 1 zeroed (p3File 1 1 255 [(32, [32]), (0, [32]), (0, [10])]) =
          some (Outcome.loaded ⟨1, 1, 3, [32, 0, 0]⟩) ∧
        decode 1 zeroed (p6File 1 1 255 [32, 0, 0]) =
          some (Outcome.exitFailure Diagnostic.couldNotReadImage)) := by
  have hl : (0 :: 0 :: List.replicate 4294967296 0).length = 1431655766 * 1 * 3 := by
    rw [List.length_cons, List.length_cons, List.length_replicate]
  refine ⟨⟨hl, decode_wrapped_size 0 zeroed _, ?_⟩, decode_leading_space 0 zeroed⟩
  intro h
  have h2 := congrArg List.length h
  rw [hl] at h2
  exact absurd h2 (by decide)

/-! ## The matrix of the render loop -/

theorem rotate_Z_zero (sinf cosf : F32 → F32) (hs : sinf F32.zero = F32.zero)
    (hc : cosf F32.zero = F32.one) :
    mat4x4_rotate_Z sinf cosf mat4x4_identity F32.zero = mat4x4_identity := by
  funext c r
  simp only [mat4x4_rotate_Z, hs, hc]
  revert c r
  decide

/-- Claim C10. With the transform state at its initial values, and `sinf(0) = 0`,
`cosf(0) = 1`, the matrix `mvp` of the render loop is the 4 by 4 identity. -/
theorem initial_mvp_identity (sinf cosf : F32 → F32) (hs : sinf F32.zero = F32.zero)
    (hc : cosf F32.zero = F32.one) :
    Viewer.initial.rotation = F32.zero ∧ Viewer.initial.scale = F32.one ∧
      Viewer.initial.translateX = F32.zero ∧ Viewer.initial.translateY = F32.zero ∧
      Viewer.initial.shearX = F32.zero ∧ Viewer.initial.shearY = F32.zero ∧
      ∀ c r : Fin 4, mvp sinf cosf Viewer.initial c r = if c = r then F32.one else F32.zero := by
  refine ⟨by decide, by decide, by decide, by decide, by decide, by decide, ?_⟩
  have hr : rotationMatrix sinf cosf Viewer.initial = mat4x4_identity :=
    rotate_Z_zero sinf cosf hs hc
  unfold mvp
  rw [hr]
  decide

/-- Witness of `initial_mvp_identity`, with `x` for `sinf(x)` and `1` for `cosf(x)`. -/
theorem initial_mvp_identity_witness :
    (fun x : F32 => x) F32.zero = F32.zero ∧ (fun _ : F32 => F32.one) F32.zero = F32.one ∧
      ∀ c r : Fin 4, mvp (fun x => x) (fun _ => F32.one) Viewer.initial c r =
        if c = r then F32.one else F32.zero :=
  ⟨rfl, rfl, (initial_mvp_identity (fun x => x) (fun _ => F32.one) rfl rfl).2.2.2.2.2.2⟩

/-- Claim C9. From the initial state, a press of W and then of Left leave `shearX` and
`translateX` at 0.1 as a `float` holds it (`13421773 * 2^-27`, the `float` nearest to 0.1) and
every other field at its initial value; with `sinf(0) = 0` and `cosf(0) = 1` the matrices `r`
and `s` are the identity and `mvp` is the product of the identity with `h[0][1] = shearX` and
the translation by `(translateX, 0, 0)`, whose entries are `mvp[0][1] = shearX`,
`mvp[3][0] = translateX`, `mvp[3][1] = shearX*translateX` (the `float` product), 1 on the
diagonal and 0 elsewhere. -/
theorem shear_then_translate (sinf cosf : F32 → F32) (hs : sinf F32.zero = F32.zero)
    (hc : cosf F32.zero = F32.one) :
    key_callback GLFW_KEY_LEFT GLFW_PRESS (key_callback GLFW_KEY_W GLFW_PRESS Viewer.initial) =
        ⟨false, F32.zero, F32.one, F32.dyadic 13421773 (-27), F32.zero,
          F32.dyadic 13421773 (-27), F32.zero⟩ ∧
      F32.dyadic 13421773 (-27) = (F64.ofRatio 1 10).toF32 ∧
      |(F32.dyadic 13421773 (-27)).toRat - 1 / 10| < 1 / 2 ^ 29 ∧
      rotationMatrix sinf cosf
          (key_callback GLFW_KEY_LEFT GLFW_PRESS (key_callback GLFW_KEY_W GLFW_PRESS Viewer.initial)) =
        mat4x4_identity ∧
      scaleMatrix
          (key_callback GLFW_KEY_LEFT GLFW_PRESS (key_callback GLFW_KEY_W GLFW_PRESS Viewer.initial)) =
        mat4x4_identity ∧
      mvp sinf cosf
          (key_callback GLFW_KEY_LEFT GLFW_PRESS (key_callback GLFW_KEY_W GLFW_PRESS Viewer.initial)) =
        mat4x4_mul
          (setEntry mat4x4_identity 0 1 (F32.dyadic 13421773 (-27)))
          (mat4x4_translate (F32.dyadic 13421773 (-27)) F32.zero F32.zero) ∧
      ∀ c r : Fin 4,
        mvp sinf cosf
            (key_callback GLFW_KEY_LEFT GLFW_PRESS
              (key_callback GLFW_KEY_W GLFW_PRESS Viewer.initial)) c r =
          if c = 0 ∧ r = 1 then F32.dyadic 13421773 (-27)
          else if c = 3 ∧ r = 0 then F32.dyadic 13421773 (-27)
          else if c = 3 ∧ r = 1 then
            (F32.dyadic 13421773 (-27)).mul (F32.dyadic 13421773 (-27))
          else if c = r then F32.one else F32.zero := by
  have hv : key_callback GLFW_KEY_LEFT GLFW_PRESS
      (key_callback GLFW_KEY_W GLFW_PRESS Viewer.initial) =
        ⟨false, F32.zero, F32.one, F32.dyadic 13421773 (-27), F32.zero,
          F32.dyadic 13421773 (-27), F32.zero⟩ := by decide
  have hr : rotationMatrix sinf cosf
      ⟨false, F32.zero, F32.one, F32.dyadic 13421773 (-27), F32.zero,
        F32.dyadic 13421773 (-27), F32.zero⟩ = mat4x4_identity :=
    rotate_Z_zero sinf cosf hs hc
  rw [hv]
  refine ⟨rfl, by decide, ?_, hr, ?_, ?_, ?_⟩
  · have hu : (F32.dyadic 13421773 (-27)).units = ((13421773 * 2 ^ 122 : Nat) : Int) := by
      decide
    have hp : pow2 149 = 2 ^ 149 := by decide
    unfold F32.toRat
    rw [hu, hp, abs_lt]
    push_cast
    constructor <;> norm_num
  · funext c r
    revert c r
    decide
  · unfold mvp
    rw [hr]
    funext c r
    revert c r
    decide
  · unfold mvp
    rw [hr]
    decide

/-- Witness of `shear_then_translate`, with `x` for `sinf(x)` and `1` for `cosf(x)`. -/
theorem shear_then_translate_witness :
    (fun x : F32 => x) F32.zero = F32.zero ∧ (fun _ : F32 => F32.one) F32.zero = F32.one ∧
      mvp (fun x => x) (fun _ => F32.one)
          (key_callback GLFW_KEY_LEFT GLFW_PRESS (key_callback GLFW_KEY_W GLFW_PRESS Viewer.initial)) =
        mat4x4_mul
          (setEntry mat4x4_identity 0 1 (F32.dyadic 13421773 (-27)))
          (mat4x4_translate (F32.dyadic 13421773 (-27)) F32.zero F32.zero) :=
  ⟨rfl, rfl, (shear_then_translate (fun x => x) (fun _ => F32.one) rfl rfl).2.2.2.2.2.1⟩

/-! ## The comment loop at the end of the file -/

theorem skipLine_zero (c : Int) (s : List Nat) : skipLine 0 c s = none := rfl

theorem skipLine_succ (fuel : Nat) (c : Int) (s : List Nat) :
    skipLine (fuel + 1) c s =
      if c ≠ 10 then skipLine fuel (toChar (getc s).1) (getc s).2 else some (c, s) := rfl

theorem skipLine_no_newline (fuel : Nat) : ∀ (c : Int) (s : List Nat), c ≠ 10 →
    (∀ b ∈ s, toChar (b : Int) ≠ 10) → skipLine fuel c s = none := by
  induction fuel with
  | zero => intro c s _ _; rfl
  | succ fuel ih =>
    intro c s hc hs
    rw [skipLine_succ, if_pos hc]
    cases s with
    | nil => exact ih _ [] (by decide) (by simp)
    | cons b t =>
      exact ih _ t (hs b (by simp)) (fun x hx => hs x (by simp [hx]))

theorem skipLine_newline (rest : List Nat) : ∀ (line : List Nat) (fuel : Nat) (c : Int),
    c ≠ 10 → (∀ b ∈ line, toChar (b : Int) ≠ 10) → line.length + 2 ≤ fuel →
    skipLine fuel c (line ++ 10 :: rest) = some (10, rest) := by
  intro line
  induction line with
  | nil =>
    intro fuel c hc _ hf
    obtain ⟨f, rfl⟩ : ∃ f, fuel = f + 2 := ⟨fuel - 2, by simp at hf; omega⟩
    rw [skipLine_succ, if_pos hc, skipLine_succ]
    rfl
  | cons b t ih =>
    intro fuel c hc hl hf
    obtain ⟨f, rfl⟩ : ∃ f, fuel = f + 1 := ⟨fuel - 1, by simp at hf; omega⟩
    rw [skipLine_succ, if_pos hc]
    exact ih f _ (hl b (by simp)) (fun x hx => hl x (by simp [hx])) (by simp at hf; omega)

/-- Claim C14, at a failing input. When the file ends inside a comment line, `getc` returns
`EOF` on every further read, `c` stays at `(char) EOF`, which is not the newline, and the inner
loop `while(c!='\n')` never ends: no amount of fuel lets the loader of `P6\n#abc` return. The
loop state `c = -1` with nothing left to read is reproduced by `c = getc(source)`. A comment
line that ends with a newline is left, as in `P6\n#abc\n1 1\n255\nxyz`. -/
theorem comment_at_end_of_file_hangs :
    (∀ (fuel : Nat) (g : Indeterminate), decode fuel g (bytes "P6\n#abc") = none) ∧
      (∀ fuel : Nat, skipComments fuel 35 (bytes "abc") = none) ∧
      (toChar (getc []).1 = -1 ∧ (getc []).2 = [] ∧ (-1 : Int) ≠ 10) ∧
      (∀ (fuel : Nat) (g : Indeterminate),
        decode (fuel + 6) g (bytes "P6\n#abc\n1 1\n255\nxyz") =
          some (Outcome.loaded ⟨1, 1, 6, bytes "xyz"⟩)) := by
  have hline : ∀ fuel : Nat, skipLine fuel (toChar (getc (bytes "abc")).1)
      (getc (bytes "abc")).2 = none := fun fuel =>
    skipLine_no_newline fuel _ _ (by decide) (by decide)
  have hloop : ∀ fuel : Nat, skipComments fuel 35 (bytes "abc") = none := by
    intro fuel
    cases fuel with
    | zero => rfl
    | succ fuel => rw [skipComments_succ, if_pos rfl, hline fuel]
  refine ⟨?_, hloop, ⟨rfl, rfl, by decide⟩, ?_⟩
  · intro fuel g
    have h1 : readHeader fuel g (bytes "P6\n#abc") =
        match skipComments fuel 35 (bytes "abc") with
        | none => none
        | some (c, s) =>
          some (Sum.inr (6, scanHeader g.width g.height g.maxColor (ungetc c s))) := rfl
    unfold decode
    rw [h1, hloop fuel]
  · intro fuel g
    exact decode_eval 6 (bytes "\n1 1\n255\nxyz") ⟨1, 1, 255, 3, bytes "xyz"⟩ rfl rfl rfl

/-! ## The command table -/

theorem quarterTurn_eq : quarterTurn = F64.div pi (F64.ofInt 2) := by decide

theorem key_callback_steps (key action : Int) (v : Viewer) :
    key_callback key action v =
      onPress key action GLFW_KEY_S (fun v => { v with shearX := v.shearX.subDouble tenth })
      (onPress key action GLFW_KEY_W (fun v => { v with shearX := v.shearX.addDouble tenth })
      (onPress key action GLFW_KEY_A (fun v => { v with shearY := v.shearY.subDouble tenth })
      (onPress key action GLFW_KEY_D (fun v => { v with shearY := v.shearY.addDouble tenth })
      (onPress key action GLFW_KEY_RIGHT
        (fun v => { v with translateX := v.translateX.subDouble tenth })
      (onPress key action GLFW_KEY_LEFT
        (fun v => { v with translateX := v.translateX.addDouble tenth })
      (onPress key action GLFW_KEY_UP
        (fun v => { v with translateY := v.translateY.subDouble tenth })
      (onPress key action GLFW_KEY_DOWN
        (fun v => { v with translateY := v.translateY.addDouble tenth })
      (onPress key action GLFW_KEY_MINUS (fun v => { v with scale := v.scale.mulDouble half })
      (onPress key action GLFW_KEY_EQUAL (fun v => { v with scale := v.scale.mul (F32.ofInt 2) })
      (onPress key action GLFW_KEY_E
        (fun v => { v with rotation := v.rotation.subDouble quarterTurn })
      (onPress key action GLFW_KEY_Q
        (fun v => { v with rotation := v.rotation.addDouble quarterTurn })
      (onPress key action GLFW_KEY_ESCAPE (fun v => { v with shouldClose := true })
        v)))))))))))) := rfl

theorem onPress_ne {σ : Type} (key action K : Int) (f : σ → σ) (v : σ) (h : key ≠ K) :
    onPress key action K f v = v := by
  unfold onPress
  rw [if_neg (fun hc => h hc.1)]

theorem onPress_not_press {σ : Type} (key action K : Int) (f : σ → σ) (v : σ)
    (h : action ≠ GLFW_PRESS) : onPress key action K f v = v := by
  unfold onPress
  rw [if_neg (fun hc => h hc.2)]

theorem onPress_self {σ : Type} (K : Int) (f : σ → σ) (v : σ) :
    onPress K GLFW_PRESS K f v = f v := by
  unfold onPress
  rw [if_pos ⟨rfl, rfl⟩]

theorem key_callback_press (key : Int) (v : Viewer) :
    key_callback key GLFW_PRESS v = commandTable key GLFW_PRESS v := by
  rw [key_callback_steps]
  unfold commandTable
  rw [if_pos rfl, ← quarterTurn_eq]
  by_cases h0 : key = GLFW_KEY_Q
  · subst h0
    simp [onPress, GLFW_KEY_Q, GLFW_KEY_E, GLFW_KEY_EQUAL, GLFW_KEY_MINUS, GLFW_KEY_UP, GLFW_KEY_DOWN, GLFW_KEY_LEFT, GLFW_KEY_RIGHT, GLFW_KEY_W, GLFW_KEY_S, GLFW_KEY_A, GLFW_KEY_D, GLFW_KEY_ESCAPE, GLFW_PRESS]
  by_cases h1 : key = GLFW_KEY_E
  · subst h1
    simp [onPress, GLFW_KEY_Q, GLFW_KEY_E, GLFW_KEY_EQUAL, GLFW_KEY_MINUS, GLFW_KEY_UP, GLFW_KEY_DOWN, GLFW_KEY_LEFT, GLFW_KEY_RIGHT, GLFW_KEY_W, GLFW_KEY_S, GLFW_KEY_A, GLFW_KEY_D, GLFW_KEY_ESCAPE, GLFW_PRESS]
  by_cases h2 : key = GLFW_KEY_EQUAL
  · subst h2
    simp [onPress, GLFW_KEY_Q, GLFW_KEY_E, GLFW_KEY_EQUAL, GLFW_KEY_MINUS, GLFW_KEY_UP, GLFW_KEY_DOWN, GLFW_KEY_LEFT, GLFW_KEY_RIGHT, GLFW_KEY_W, GLFW_KEY_S, GLFW_KEY_A, GLFW_KEY_D, GLFW_KEY_ESCAPE, GLFW_PRESS]
  by_cases h3 : key = GLFW_KEY_MINUS
  · subst h3
    simp [onPress, GLFW_KEY_Q, GLFW_KEY_E, GLFW_KEY_EQUAL, GLFW_KEY_MINUS, GLFW_KEY_UP, GLFW_KEY_DOWN, GLFW_KEY_LEFT, GLFW_KEY_RIGHT, GLFW_KEY_W, GLFW_KEY_S, GLFW_KEY_A, GLFW_KEY_D, GLFW_KEY_ESCAPE, GLFW_PRESS]
  by_cases h4 : key = GLFW_KEY_UP
  · subst h4
    simp [onPress, GLFW_KEY_Q, GLFW_KEY_E, GLFW_KEY_EQUAL, GLFW_KEY_MINUS, GLFW_KEY_UP, GLFW_KEY_DOWN, GLFW_KEY_LEFT, GLFW_KEY_RIGHT, GLFW_KEY_W, GLFW_KEY_S, GLFW_KEY_A, GLFW_KEY_D, GLFW_KEY_ESCAPE, GLFW_PRESS]
  by_cases h5 : key = GLFW_KEY_DOWN
  · subst h5
    simp [onPress, GLFW_KEY_Q, GLFW_KEY_E, GLFW_KEY_EQUAL, GLFW_KEY_MINUS, GLFW_KEY_UP, GLFW_KEY_DOWN, GLFW_KEY_LEFT, GLFW_KEY_RIGHT, GLFW_KEY_W, GLFW_KEY_S, GLFW_KEY_A, GLFW_KEY_D, GLFW_KEY_ESCAPE, GLFW_PRESS]
  by_cases h6 : key = GLFW_KEY_LEFT
  · subst h6
    simp [onPress, GLFW_KEY_Q, GLFW_KEY_E, GLFW_KEY_EQUAL, GLFW_KEY_MINUS, GLFW_KEY_UP, GLFW_KEY_DOWN, GLFW_KEY_LEFT, GLFW_KEY_RIGHT, GLFW_KEY_W, GLFW_KEY_S, GLFW_KEY_A, GLFW_KEY_D, GLFW_KEY_ESCAPE, GLFW_PRESS]
  by_cases h7 : key = GLFW_KEY_RIGHT
  · subst h7
    simp [onPress, GLFW_KEY_Q, GLFW_KEY_E, GLFW_KEY_EQUAL, GLFW_KEY_MINUS, GLFW_KEY_UP, GLFW_KEY_DOWN, GLFW_KEY_LEFT, GLFW_KEY_RIGHT, GLFW_KEY_W, GLFW_KEY_S, GLFW_KEY_A, GLFW_KEY_D, GLFW_KEY_ESCAPE, GLFW_PRESS]
  by_cases h8 : key = GLFW_KEY_W
  · subst h8
    simp [onPress, GLFW_KEY_Q, GLFW_KEY_E, GLFW_KEY_EQUAL, GLFW_KEY_MINUS, GLFW_KEY_UP, GLFW_KEY_DOWN, GLFW_KEY_LEFT, GLFW_KEY_RIGHT, GLFW_KEY_W, GLFW_KEY_S, GLFW_KEY_A, GLFW_KEY_D, GLFW_KEY_ESCAPE, GLFW_PRESS]
  by_cases h9 : key = GLFW_KEY_S
  · subst h9
    simp [onPress, GLFW_KEY_Q, GLFW_KEY_E, GLFW_KEY_EQUAL, GLFW_KEY_MINUS, GLFW_KEY_UP, GLFW_KEY_DOWN, GLFW_KEY_LEFT, GLFW_KEY_RIGHT, GLFW_KEY_W, GLFW_KEY_S, GLFW_KEY_A, GLFW_KEY_D, GLFW_KEY_ESCAPE, GLFW_PRESS]
  by_cases h10 : key = GLFW_KEY_A
  · subst h10
    simp [onPress, GLFW_KEY_Q, GLFW_KEY_E, GLFW_KEY_EQUAL, GLFW_KEY_MINUS, GLFW_KEY_UP, GLFW_KEY_DOWN, GLFW_KEY_LEFT, GLFW_KEY_RIGHT, GLFW_KEY_W, GLFW_KEY_S, GLFW_KEY_A, GLFW_KEY_D, GLFW_KEY_ESCAPE, GLFW_PRESS]
  by_cases h11 : key = GLFW_KEY_D
  · subst h11
    simp [onPress, GLFW_KEY_Q, GLFW_KEY_E, GLFW_KEY_EQUAL, GLFW_KEY_MINUS, GLFW_KEY_UP, GLFW_KEY_DOWN, GLFW_KEY_LEFT, GLFW_KEY_RIGHT, GLFW_KEY_W, GLFW_KEY_S, GLFW_KEY_A, GLFW_KEY_D, GLFW_KEY_ESCAPE, GLFW_PRESS]
  by_cases h12 : key = GLFW_KEY_ESCAPE
  · subst h12
    simp [onPress, GLFW_KEY_Q, GLFW_KEY_E, GLFW_KEY_EQUAL, GLFW_KEY_MINUS, GLFW_KEY_UP, GLFW_KEY_DOWN, GLFW_KEY_LEFT, GLFW_KEY_RIGHT, GLFW_KEY_W, GLFW_KEY_S, GLFW_KEY_A, GLFW_KEY_D, GLFW_KEY_ESCAPE, GLFW_PRESS]
  simp only [onPress_ne _ _ _ _ _ h0, onPress_ne _ _ _ _ _ h1, onPress_ne _ _ _ _ _ h2,
    onPress_ne _ _ _ _ _ h3, onPress_ne _ _ _ _ _ h4, onPress_ne _ _ _ _ _ h5,
    onPress_ne _ _ _ _ _ h6, onPress_ne _ _ _ _ _ h7, onPress_ne _ _ _ _ _ h8,
    onPress_ne _ _ _ _ _ h9, onPress_ne _ _ _ _ _ h10, onPress_ne _ _ _ _ _ h11,
    onPress_ne _ _ _ _ _ h12, if_neg h0, if_neg h1, if_neg h2, if_neg h3, if_neg h4, if_neg h5,
    if_neg h6, if_neg h7, if_neg h8, if_neg h9, if_neg h10, if_neg h11, if_neg h12]

theorem commandTable_press (v : Viewer) :
    commandTable GLFW_KEY_Q GLFW_PRESS v =
        { v with rotation := v.rotation.addDouble (F64.div pi (F64.ofInt 2)) } ∧
      commandTable GLFW_KEY_E GLFW_PRESS v =
        { v with rotation := v.rotation.subDouble (F64.div pi (F64.ofInt 2)) } ∧
      commandTable GLFW_KEY_EQUAL GLFW_PRESS v = { v with scale := v.scale.mul (F32.ofInt 2) } ∧
      commandTable GLFW_KEY_MINUS GLFW_PRESS v = { v with scale := v.scale.mulDouble half } ∧
      commandTable GLFW_KEY_UP GLFW_PRESS v =
        { v with translateY := v.translateY.subDouble tenth } ∧
      commandTable GLFW_KEY_DOWN GLFW_PRESS v =
        { v with translateY := v.translateY.addDouble tenth } ∧
      commandTable GLFW_KEY_LEFT GLFW_PRESS v =
        { v with translateX := v.translateX.addDouble tenth } ∧
      commandTable GLFW_KEY_RIGHT GLFW_PRESS v =
        { v with translateX := v.translateX.subDouble tenth } ∧
      commandTable GLFW_KEY_W GLFW_PRESS v = { v with shearX := v.shearX.addDouble tenth } ∧
      commandTable GLFW_KEY_S GLFW_PRESS v = { v with shearX := v.shearX.subDouble tenth } ∧
      commandTable GLFW_KEY_A GLFW_PRESS v = { v with shearY := v.shearY.subDouble tenth } ∧
      commandTable GLFW_KEY_D GLFW_PRESS v = { v with shearY := v.shearY.addDouble tenth } ∧
      commandTable GLFW_KEY_ESCAPE GLFW_PRESS v = { v with shouldClose := true } := by
  simp [commandTable, GLFW_KEY_Q, GLFW_KEY_E, GLFW_KEY_EQUAL, GLFW_KEY_MINUS, GLFW_KEY_UP, GLFW_KEY_DOWN, GLFW_KEY_LEFT,
    GLFW_KEY_RIGHT, GLFW_KEY_W, GLFW_KEY_S, GLFW_KEY_A, GLFW_KEY_D, GLFW_KEY_ESCAPE, GLFW_PRESS]

theorem main_key_callback_steps (key action : Int) (v : MainViewer) :
    Main.key_callback key action v =
      onPress key action GLFW_KEY_A (fun v => { v with shear_x := v.shear_x.subDouble tenth })
      (onPress key action GLFW_KEY_D (fun v => { v with shear_x := v.shear_x.addDouble tenth })
      (onPress key action GLFW_KEY_S (fun v => { v with shear_y := v.shear_y.subDouble tenth })
      (onPress key action GLFW_KEY_W (fun v => { v with shear_y := v.shear_y.addDouble tenth })
      (onPress key action GLFW_KEY_RIGHT
        (fun v => { v with translate_x := v.translate_x.subDouble tenth })
      (onPress key action GLFW_KEY_LEFT
        (fun v => { v with translate_x := v.translate_x.addDouble tenth })
      (onPress key action GLFW_KEY_UP
        (fun v => { v with translate_y := v.translate_y.subDouble tenth })
      (onPress key action GLFW_KEY_DOWN
        (fun v => { v with translate_y := v.translate_y.addDouble tenth })
      (onPress key action GLFW_KEY_MINUS (fun v => { v with scale := v.scale.mulDouble half })
      (onPress key action GLFW_KEY_EQUAL (fun v => { v with scale := v.scale.mul (F32.ofInt 2) })
      (onPress key action GLFW_KEY_E
        (fun v => { v with rotation := v.rotation.subDouble quarterTurn })
      (onPress key action GLFW_KEY_Q
        (fun v => { v with rotation := v.rotation.addDouble quarterTurn })
      (onPress key action GLFW_KEY_ESCAPE (fun v => { v with shouldClose := true })
        v)))))))))))) := rfl

theorem main_mvp_eq (sinf cosf : F32 → F32) (v : MainViewer) :
    Main.mvp sinf cosf v = mvp sinf cosf v.toViewer := rfl

theorem callbacks_agree (key action : Int) (v : MainViewer)
    (h : action ≠ GLFW_PRESS ∨
      (key ≠ GLFW_KEY_W ∧ key ≠ GLFW_KEY_S ∧ key ≠ GLFW_KEY_A ∧ key ≠ GLFW_KEY_D)) :
    (Main.key_callback key action v).toViewer = key_callback key action v.toViewer := by
  rw [main_key_callback_steps, key_callback_steps]
  by_cases ha : action = GLFW_PRESS
  · rcases h with h | ⟨hw, hs, hA, hd⟩
    · exact absurd ha h
    subst ha
    simp only [onPress_ne _ _ _ _ _ hw, onPress_ne _ _ _ _ _ hs, onPress_ne _ _ _ _ _ hA,
      onPress_ne _ _ _ _ _ hd]
    by_cases h0 : key = GLFW_KEY_Q
    · subst h0
      simp [onPress, MainViewer.toViewer, GLFW_KEY_Q, GLFW_KEY_E, GLFW_KEY_EQUAL, GLFW_KEY_MINUS, GLFW_KEY_UP, GLFW_KEY_DOWN, GLFW_KEY_LEFT,
      GLFW_KEY_RIGHT, GLFW_KEY_W, GLFW_KEY_S, GLFW_KEY_A, GLFW_KEY_D, GLFW_KEY_ESCAPE, GLFW_PRESS]
    by_cases h1 : key = GLFW_KEY_E
    · subst h1
      simp [onPress, MainViewer.toViewer, GLFW_KEY_Q, GLFW_KEY_E, GLFW_KEY_EQUAL, GLFW_KEY_MINUS, GLFW_KEY_UP, GLFW_KEY_DOWN, GLFW_KEY_LEFT,
      GLFW_KEY_RIGHT, GLFW_KEY_W, GLFW_KEY_S, GLFW_KEY_A, GLFW_KEY_D, GLFW_KEY_ESCAPE, GLFW_PRESS]
    by_cases h2 : key = GLFW_KEY_EQUAL
    · subst h2
      simp [onPress, MainViewer.toViewer, GLFW_KEY_Q, GLFW_KEY_E, GLFW_KEY_EQUAL, GLFW_KEY_MINUS, GLFW_KEY_UP, GLFW_KEY_DOWN, GLFW_KEY_LEFT,
      GLFW_KEY_RIGHT, GLFW_KEY_W, GLFW_KEY_S, GLFW_KEY_A, GLFW_KEY_D, GLFW_KEY_ESCAPE, GLFW_PRESS]
    by_cases h3 : key = GLFW_KEY_MINUS
    · subst h3
      simp [onPress, MainViewer.toViewer, GLFW_KEY_Q, GLFW_KEY_E, GLFW_KEY_EQUAL, GLFW_KEY_MINUS, GLFW_KEY_UP, GLFW_KEY_DOWN, GLFW_KEY_LEFT,
      GLFW_KEY_RIGHT, GLFW_KEY_W, GLFW_KEY_S, GLFW_KEY_A, GLFW_KEY_D, GLFW_KEY_ESCAPE, GLFW_PRESS]
    by_cases h4 : key = GLFW_KEY_UP
    · subst h4
      simp [onPress, MainViewer.toViewer, GLFW_KEY_Q, GLFW_KEY_E, GLFW_KEY_EQUAL, GLFW_KEY_MINUS, GLFW_KEY_UP, GLFW_KEY_DOWN, GLFW_KEY_LEFT,
      GLFW_KEY_RIGHT, GLFW_KEY_W, GLFW_KEY_S, GLFW_KEY_A, GLFW_KEY_D, GLFW_KEY_ESCAPE, GLFW_PRESS]
    by_cases h5 : key = GLFW_KEY_DOWN
    · subst h5
      simp [onPress, MainViewer.toViewer, GLFW_KEY_Q, GLFW_KEY_E, GLFW_KEY_EQUAL, GLFW_KEY_MINUS, GLFW_KEY_UP, GLFW_KEY_DOWN, GLFW_KEY_LEFT,
      GLFW_KEY_RIGHT, GLFW_KEY_W, GLFW_KEY_S, GLFW_KEY_A, GLFW_KEY_D, GLFW_KEY_ESCAPE, GLFW_PRESS]
    by_cases h6 : key = GLFW_KEY_LEFT
    · subst h6
      simp [onPress, MainViewer.toViewer, GLFW_KEY_Q, GLFW_KEY_E, GLFW_KEY_EQUAL, GLFW_KEY_MINUS, GLFW_KEY_UP, GLFW_KEY_DOWN, GLFW_KEY_LEFT,
      GLFW_KEY_RIGHT, GLFW_KEY_W, GLFW_KEY_S, GLFW_KEY_A, GLFW_KEY_D, GLFW_KEY_ESCAPE, GLFW_PRESS]
    by_cases h7 : key = GLFW_KEY_RIGHT
    · subst h7
      simp [onPress, MainViewer.toViewer, GLFW_KEY_Q, GLFW_KEY_E, GLFW_KEY_EQUAL, GLFW_KEY_MINUS, GLFW_KEY_UP, GLFW_KEY_DOWN, GLFW_KEY_LEFT,
      GLFW_KEY_RIGHT, GLFW_KEY_W, GLFW_KEY_S, GLFW_KEY_A, GLFW_KEY_D, GLFW_KEY_ESCAPE, GLFW_PRESS]
    by_cases h8 : key = GLFW_KEY_ESCAPE
    · subst h8
      simp [onPress, MainViewer.toViewer, GLFW_KEY_Q, GLFW_KEY_E, GLFW_KEY_EQUAL, GLFW_KEY_MINUS, GLFW_KEY_UP, GLFW_KEY_DOWN, GLFW_KEY_LEFT,
      GLFW_KEY_RIGHT, GLFW_KEY_W, GLFW_KEY_S, GLFW_KEY_A, GLFW_KEY_D, GLFW_KEY_ESCAPE, GLFW_PRESS]
    simp only [onPress_ne _ _ _ _ _ h0, onPress_ne _ _ _ _ _ h1, onPress_ne _ _ _ _ _ h2,
      onPress_ne _ _ _ _ _ h3, onPress_ne _ _ _ _ _ h4, onPress_ne _ _ _ _ _ h5,
      onPress_ne _ _ _ _ _ h6, onPress_ne _ _ _ _ _ h7, onPress_ne _ _ _ _ _ h8]
  · simp only [onPress_not_press _ _ _ _ _ ha]

theorem keyEvents_agree : ∀ (events : List (Int × Int)),
    (∀ e ∈ events, e.2 ≠ GLFW_PRESS ∨
      (e.1 ≠ GLFW_KEY_W ∧ e.1 ≠ GLFW_KEY_S ∧ e.1 ≠ GLFW_KEY_A ∧ e.1 ≠ GLFW_KEY_D)) →
    ∀ v : MainViewer, (Main.keyEvents events v).toViewer = keyEvents events v.toViewer := by
  intro events
  induction events with
  | nil => intro _ v; rfl
  | cons e rest ih =>
    intro h v
    have h1 := callbacks_agree e.1 e.2 v (h e (by simp))
    have h2 := ih (fun x hx => h x (by simp [hx])) (Main.key_callback e.1 e.2 v)
    unfold Main.keyEvents keyEvents at h2 ⊢
    rw [List.foldl_cons, List.foldl_cons, h2, h1]

/-- Claim C13, at a failing input. From the initial state a press of W makes `key_callback`
of `main.c` add 0.1 to `shear_y`, while `key_callback` of `ezview.c` adds it to `shearX`: under
the correspondence `shear_x = shearX`, `shear_y = shearY` the next states differ. The two
render loops are the same function of the corresponding fields, so with `sinf(0) = 0` and
`cosf(0) = 1` the matrices differ too: `mvp[0][1]` is 0.1 in `ezview.c` and 0 in `main.c`,
`mvp[1][0]` is 0 in `ezview.c` and 0.1 in `main.c`. On sequences of events without a press of
W, S, A or D the two files do agree. -/
theorem shear_keys_differ :
    MainViewer.initial.toViewer = Viewer.initial ∧
      (Main.keyEvents [(GLFW_KEY_W, GLFW_PRESS)] MainViewer.initial).toViewer =
        ⟨false, F32.zero, F32.one, F32.zero, F32.zero, F32.zero, F32.dyadic 13421773 (-27)⟩ ∧
      keyEvents [(GLFW_KEY_W, GLFW_PRESS)] Viewer.initial =
        ⟨false, F32.zero, F32.one, F32.zero, F32.zero, F32.dyadic 13421773 (-27), F32.zero⟩ ∧
      (Main.keyEvents [(GLFW_KEY_W, GLFW_PRESS)] MainViewer.initial).toViewer ≠
        keyEvents [(GLFW_KEY_W, GLFW_PRESS)] Viewer.initial ∧
      (∀ sinf cosf : F32 → F32, sinf F32.zero = F32.zero → cosf F32.zero = F32.one →
        mvp sinf cosf (keyEvents [(GLFW_KEY_W, GLFW_PRESS)] Viewer.initial) 0 1 =
            F32.dyadic 13421773 (-27) ∧
          Main.mvp sinf cosf (Main.keyEvents [(GLFW_KEY_W, GLFW_PRESS)] MainViewer.initial) 0 1 =
            F32.zero ∧
          mvp sinf cosf (keyEvents [(GLFW_KEY_W, GLFW_PRESS)] Viewer.initial) 1 0 = F32.zero ∧
          Main.mvp sinf cosf (Main.keyEvents [(GLFW_KEY_W, GLFW_PRESS)] MainViewer.initial) 1 0 =
            F32.dyadic 13421773 (-27)) ∧
      (∀ (sinf cosf : F32 → F32) (v : MainViewer),
        Main.mvp sinf cosf v = mvp sinf cosf v.toViewer) ∧
      (∀ events : List (Int × Int),
        (∀ e ∈ events, e.2 ≠ GLFW_PRESS ∨
          (e.1 ≠ GLFW_KEY_W ∧ e.1 ≠ GLFW_KEY_S ∧ e.1 ≠ GLFW_KEY_A ∧ e.1 ≠ GLFW_KEY_D)) →
        ∀ v : MainViewer, (Main.keyEvents events v).toViewer = keyEvents events v.toViewer) := by
  have hm : (Main.keyEvents [(GLFW_KEY_W, GLFW_PRESS)] MainViewer.initial).toViewer =
      ⟨false, F32.zero, F32.one, F32.zero, F32.zero, F32.zero, F32.dyadic 13421773 (-27)⟩ := by
    decide
  have he : keyEvents [(GLFW_KEY_W, GLFW_PRESS)] Viewer.initial =
      ⟨false, F32.zero, F32.one, F32.zero, F32.zero, F32.dyadic 13421773 (-27), F32.zero⟩ := by
    decide
  refine ⟨by decide, hm, he, by rw [hm, he]; decide, ?_, main_mvp_eq, keyEvents_agree⟩
  intro sinf cosf hs hc
  have hr1 : rotationMatrix sinf cosf
      ⟨false, F32.zero, F32.one, F32.zero, F32.zero, F32.dyadic 13421773 (-27), F32.zero⟩ =
        mat4x4_identity := rotate_Z_zero sinf cosf hs hc
  have hr2 : rotationMatrix sinf cosf
      ⟨false, F32.zero, F32.one, F32.zero, F32.zero, F32.zero, F32.dyadic 13421773 (-27)⟩ =
        mat4x4_identity := rotate_Z_zero sinf cosf hs hc
  rw [main_mvp_eq, hm, he]
  unfold mvp
  rw [hr1, hr2]
  decide

/-! ## Rounding

Facts about `roundRatio`: a ratio that has at most `p` significant bits is returned as it
is, and in general the result is within half a unit in the last place of the ratio. -/

theorem pow2_eq (k : Nat) : pow2 k = 2 ^ k := by
  unfold pow2
  rw [Nat.shiftLeft_eq, Nat.one_mul]

theorem bitLengthAux_zero (n : Nat) : bitLengthAux 0 n = if n = 0 then 0 else 1 := rfl

theorem bitLengthAux_succ (k n : Nat) :
    bitLengthAux (k + 1) n =
      if n < pow2 (pow2 k) then bitLengthAux k n
      else pow2 k + bitLengthAux k (n / pow2 (pow2 k)) := rfl

/-- The binary search returns the number of binary digits: `n < 2^B`, and `2^(B-1) ≤ n`
for `n` other than zero. -/
theorem bitLengthAux_spec (k : Nat) : ∀ n : Nat, n < 2 ^ 2 ^ k →
    n < 2 ^ bitLengthAux k n ∧ (0 < n → 1 ≤ bitLengthAux k n ∧ 2 ^ (bitLengthAux k n - 1) ≤ n) := by
  induction k with
  | zero =>
    intro n hn
    rw [bitLengthAux_zero]
    have : n = 0 ∨ n = 1 := by simp at hn; omega
    rcases this with h | h <;> subst h <;> simp
  | succ k ih =>
    intro n hn
    rw [bitLengthAux_succ, pow2_eq, pow2_eq]
    have hM : 0 < 2 ^ 2 ^ k := by positivity
    have hsq : 2 ^ 2 ^ (k + 1) = 2 ^ 2 ^ k * 2 ^ 2 ^ k := by
      rw [← pow_add]; congr 1; rw [pow_succ]; ring
    split
    · rename_i h; exact ih n h
    · rename_i h
      have hq : n / 2 ^ 2 ^ k < 2 ^ 2 ^ k := by
        rw [Nat.div_lt_iff_lt_mul hM, ← hsq]; exact hn
      have hq0 : 0 < n / 2 ^ 2 ^ k := Nat.div_pos (by omega) hM
      obtain ⟨h1, h2⟩ := ih _ hq
      obtain ⟨h3, h4⟩ := h2 hq0
      have hdm := Nat.div_add_mod n (2 ^ 2 ^ k)
      have hmod := Nat.mod_lt n hM
      refine ⟨?_, fun _ => ⟨Nat.le_trans h3 (Nat.le_add_left _ _), ?_⟩⟩
      · rw [pow_add]
        calc n = 2 ^ 2 ^ k * (n / 2 ^ 2 ^ k) + n % 2 ^ 2 ^ k := hdm.symm
          _ < 2 ^ 2 ^ k * (n / 2 ^ 2 ^ k) + 2 ^ 2 ^ k := by omega
          _ = 2 ^ 2 ^ k * (n / 2 ^ 2 ^ k + 1) := by ring
          _ ≤ 2 ^ 2 ^ k * 2 ^ bitLengthAux k (n / 2 ^ 2 ^ k) := Nat.mul_le_mul_left _ h1
      · have e : 2 ^ k + bitLengthAux k (n / 2 ^ 2 ^ k) - 1 =
            2 ^ k + (bitLengthAux k (n / 2 ^ 2 ^ k) - 1) := Nat.add_sub_assoc h3 _
        rw [e, pow_add]
        calc 2 ^ 2 ^ k * 2 ^ (bitLengthAux k (n / 2 ^ 2 ^ k) - 1)
            ≤ 2 ^ 2 ^ k * (n / 2 ^ 2 ^ k) := Nat.mul_le_mul_left _ h4
          _ ≤ n := by omega

theorem bitLengthAux_zero_arg : bitLengthAux 13 0 = 0 := by decide

theorem bitLength_le (n m : Nat) (hn : n < 2 ^ m) (hm : m ≤ 2 ^ 13) : bitLength n ≤ m := by
  have h8 : n < 2 ^ 2 ^ 13 := lt_of_lt_of_le hn (Nat.pow_le_pow_right (by decide) hm)
  obtain ⟨_, h2⟩ := bitLengthAux_spec 13 n h8
  unfold bitLength
  by_contra hc
  have hpos : 0 < n := by
    by_contra h0
    have : n = 0 := by omega
    subst this
    rw [bitLengthAux_zero_arg] at hc
    omega
  obtain ⟨_, h4⟩ := h2 hpos
  have : 2 ^ m ≤ 2 ^ (bitLengthAux 13 n - 1) := Nat.pow_le_pow_right (by decide) (by omega)
  omega

theorem pow_bitLength_le (n p : Nat) (hn : n < 2 ^ 2 ^ 13) :
    2 ^ (bitLength n - p) * 2 ^ p ≤ 2 * n + 2 ^ p := by
  obtain ⟨_, h2⟩ := bitLengthAux_spec 13 n hn
  have hp : 0 < 2 ^ p := by positivity
  unfold bitLength
  by_cases hle : bitLengthAux 13 n ≤ p
  · rw [Nat.sub_eq_zero_of_le hle]; omega
  · have hpos : 0 < n := by
      by_contra h0
      have : n = 0 := by omega
      subst this
      rw [bitLengthAux_zero_arg] at hle
      omega
    obtain ⟨_, h4⟩ := h2 hpos
    rw [← pow_add, Nat.sub_add_cancel (by omega)]
    have : 2 ^ bitLengthAux 13 n = 2 * 2 ^ (bitLengthAux 13 n - 1) := by
      rw [← pow_succ']; congr 1; omega
    omega


theorem roundHalfEven_exact (c D : Nat) (hD : 0 < D) : roundHalfEven (c * D) D = c := by
  unfold roundHalfEven
  rw [Nat.mul_mod_left, Nat.mul_div_cancel _ hD, if_pos (by omega)]

/-- Rounding to the nearest integer moves the quotient by at most one half. -/
theorem roundHalfEven_error (N D : Nat) (hD : 0 < D) :
    2 * (roundHalfEven N D * D) ≤ 2 * N + D ∧ 2 * N ≤ 2 * (roundHalfEven N D * D) + D := by
  have h1 := Nat.div_add_mod N D
  have h2 := Nat.mod_lt N hD
  have h3 : (N / D + 1) * D = D * (N / D) + D := by ring
  have h4 : N / D * D = D * (N / D) := by ring
  unfold roundHalfEven
  split_ifs <;> first | (rw [h3]; omega) | (rw [h4]; omega)

/-- A ratio `m * 2^e` with `|m| < 2^p` has at most `p` significant bits and is not
rounded. -/
theorem roundRatio_dyadic (p : Nat) (m : Int) (e d : Nat) (hd : 0 < d) (hm : m.natAbs < 2 ^ p)
    (he : p + e ≤ 2 ^ 13) : roundRatio p (m * 2 ^ e * d) d = m * 2 ^ e := by
  have hN : (m * 2 ^ e * d).natAbs = m.natAbs * 2 ^ e * d := by
    rw [Int.natAbs_mul, Int.natAbs_mul, Int.natAbs_pow, Int.natAbs_ofNat]; rfl
  have hq : m.natAbs * 2 ^ e * d / d = m.natAbs * 2 ^ e := Nat.mul_div_cancel _ hd
  have hB : bitLength (m.natAbs * 2 ^ e) ≤ p + e := by
    apply bitLength_le _ _ _ he
    rw [pow_add]
    exact Nat.mul_lt_mul_of_pos_right hm (by positivity)
  unfold roundRatio
  rw [hN, hq, pow2_eq]
  generalize hs : bitLength (m.natAbs * 2 ^ e) - p = s
  have hse : s ≤ e := by omega
  have hx : m.natAbs * 2 ^ e * d = m.natAbs * 2 ^ (e - s) * (d * 2 ^ s) := by
    have : 2 ^ e = 2 ^ (e - s) * 2 ^ s := by rw [← pow_add]; congr 1; omega
    rw [this]; ring
  have hy : m.natAbs * 2 ^ (e - s) * 2 ^ s = m.natAbs * 2 ^ e := by
    rw [Nat.mul_assoc, ← pow_add]; congr 2; omega
  rw [hx, roundHalfEven_exact _ _ (by positivity), hy]
  rcases Int.lt_trichotomy m 0 with h | h | h
  · have hsg : Int.sign (m * 2 ^ e * d) = -1 := by
      apply Int.sign_eq_neg_one_of_neg
      have : (0 : Int) < 2 ^ e * d := by positivity
      rw [Int.mul_assoc]
      exact Int.mul_neg_of_neg_of_pos h this
    rw [hsg]; push_cast; rw [abs_of_neg h]; ring
  · subst h; simp
  · have hsg : Int.sign (m * 2 ^ e * d) = 1 := by
      apply Int.sign_eq_one_of_pos
      positivity
    rw [hsg]; push_cast; rw [abs_of_pos h]; ring

/-- The relative error of rounding to `p` significant bits: the distance of the result to
the ratio `n / d`, times `2^(p+1)`, is at most `2 * |n / d|`, plus `2^p` units for the
subnormal range. The inequality is multiplied by `d`. -/
theorem roundRatio_error (p : Nat) (n : Int) (d : Nat) (hd : 0 < d)
    (hn : n.natAbs / d < 2 ^ 2 ^ 13) :
    2 ^ (p + 1) * (roundRatio p n d * d - n).natAbs ≤ 2 * n.natAbs + 2 ^ p * d := by
  by_cases h0 : n = 0
  · subst h0; simp [roundRatio]
  have hB := pow_bitLength_le (n.natAbs / d) p hn
  have hC : n.natAbs / d * d ≤ n.natAbs := Nat.div_mul_le_self _ _
  unfold roundRatio
  rw [pow2_eq]
  generalize bitLength (n.natAbs / d) - p = s at *
  have hA := roundHalfEven_error n.natAbs (d * 2 ^ s) (by positivity)
  generalize roundHalfEven n.natAbs (d * 2 ^ s) = h at *
  have e : Int.sign n * ((h * 2 ^ s : Nat) : Int) * (d : Int) - n =
      Int.sign n * (((h * (d * 2 ^ s) : Nat) : Int) - (n.natAbs : Int)) := by
    rw [mul_sub, Int.sign_mul_natAbs]; push_cast; ring
  rw [e, Int.natAbs_mul, Int.natAbs_sign_of_nonzero h0, one_mul]
  generalize hZ : (((h * (d * 2 ^ s) : Nat) : Int) - (n.natAbs : Int)).natAbs = Z
  have hZ2 : 2 * Z ≤ d * 2 ^ s := by omega
  calc 2 ^ (p + 1) * Z = 2 ^ p * (2 * Z) := by ring
    _ ≤ 2 ^ p * (d * 2 ^ s) := Nat.mul_le_mul_left _ hZ2
    _ = d * (2 ^ s * 2 ^ p) := by ring
    _ ≤ d * (2 * (n.natAbs / d) + 2 ^ p) := Nat.mul_le_mul_left _ hB
    _ = 2 * (n.natAbs / d * d) + 2 ^ p * d := by ring
    _ ≤ 2 * n.natAbs + 2 ^ p * d := by omega

theorem natAbs_le_add_sub (a b : Int) : a.natAbs ≤ b.natAbs + (a - b).natAbs := by omega

theorem natAbs_sub_le_three (R K s X : Int) :
    (X - K).natAbs ≤ R.natAbs + (s - (R + K)).natAbs + (X - s).natAbs := by omega

theorem natAbs_sub_le_four (R K s1 X1 s2 X2 : Int) :
    (X2 - R).natAbs ≤ (s1 - (R + K)).natAbs + (X1 - s1).natAbs + (s2 - (X1 - K)).natAbs +
      (X2 - s2).natAbs := by omega

theorem error_le_of_double (a N PW : Nat) (e : 2 ^ 54 * a ≤ 2 * N + 2 ^ 53) (hN : N ≤ 4 * PW)
    (h1 : 1 ≤ PW) : a ≤ PW := by omega

theorem error_le_of_float (a S U PW : Nat) (e : 2 ^ 25 * a ≤ 2 * S + 2 ^ 24 * U)
    (hS : S ≤ 4 * PW) (hPW : 2 ^ 150 * U ≤ PW) : a ≤ PW := by omega

theorem round_trip_arith (r a1 a2 a3 a4 N1 S1 N3 S2 D U PW : Nat) (hU : 0 < U)
    (hPW : 2 ^ 150 * U ≤ PW) (hr : r ≤ PW) (t1 : N1 ≤ r + PW) (t2 : S1 ≤ N1 + a1)
    (t3 : N3 ≤ r + a1 + a2) (t4 : S2 ≤ N3 + a3) (t5 : D ≤ a1 + a2 + a3 + a4)
    (e1 : 2 ^ 54 * a1 ≤ 2 * N1 + 2 ^ 53) (e2 : 2 ^ 25 * a2 ≤ 2 * S1 + 2 ^ 24 * U)
    (e3 : 2 ^ 54 * a3 ≤ 2 * N3 + 2 ^ 53) (e4 : 2 ^ 25 * a4 ≤ 2 * S2 + 2 ^ 24 * U) :
    2 ^ 22 * D ≤ PW := by
  omega

theorem quarterTurn_range : 0 ≤ quarterTurn.units ∧ quarterTurn.units ≤ 2 * pow2 1074 := by
  decide

/-- Adding the `double` `90*pi/180` to a `float` and then subtracting it again: four
roundings, to `double` and to `float` twice each. For `|r| ≤ 2^k` the result is within
`2^(k-22)` of `r`. -/
theorem add_sub_quarterTurn_error (r : F32) (k : Nat) (hk1 : 1 ≤ k) (hk : k ≤ 128)
    (hr : r.units.natAbs ≤ 2 ^ k * 2 ^ 149) :
    2 ^ 22 * (((r.addDouble quarterTurn).subDouble quarterTurn).units - r.units).natAbs ≤
      2 ^ k * 2 ^ 149 := by
  have hK0 := quarterTurn_range.1
  have hK := quarterTurn_range.2
  have hW : pow2 1074 = 2 ^ 149 * pow2 925 := by rw [pow2_eq, pow2_eq, ← pow_add]
  have hU : 0 < pow2 925 := by rw [pow2_eq]; positivity
  have hUp : pow2 925 = 2 ^ 925 := pow2_eq 925
  have hbig : 8 * (2 ^ k * 2 ^ 149 * pow2 925) ≤ 2 ^ 2 ^ 13 := by
    have e : 8 * (2 ^ k * 2 ^ 149 * pow2 925) = 2 ^ (3 + k + 149 + 925) := by
      rw [hUp, pow_add, pow_add, pow_add]; ring
    rw [e]
    exact Nat.pow_le_pow_right (by decide) (by omega)
  have hR : (r.units * (pow2 925 : Int)).natAbs ≤ 2 ^ k * 2 ^ 149 * pow2 925 := by
    rw [Int.natAbs_mul, Int.natAbs_ofNat]
    exact Nat.mul_le_mul_right _ hr
  have hPW : 2 ^ 150 * pow2 925 ≤ 2 ^ k * 2 ^ 149 * pow2 925 := by
    have h1 : 2 ^ 1 ≤ 2 ^ k := Nat.pow_le_pow_right (by decide) hk1
    have h2 : (2 : Nat) ^ 150 = 2 ^ 1 * 2 ^ 149 := by norm_num
    rw [h2]
    exact Nat.mul_le_mul_right _ (Nat.mul_le_mul_right _ h1)
  have hKn : quarterTurn.units.natAbs ≤ 2 ^ k * 2 ^ 149 * pow2 925 := by
    have h2 : (2 : Nat) ^ 150 = 2 * 2 ^ 149 := by norm_num
    rw [h2, Nat.mul_assoc, ← hW] at hPW
    clear hbig hR hr
    omega
  have hgoal : 2 ^ 22 * ((((r.addDouble quarterTurn).subDouble quarterTurn).units - r.units) *
      (pow2 925 : Int)).natAbs ≤ 2 ^ k * 2 ^ 149 * pow2 925 := by
    simp only [F32.addDouble, F32.subDouble, F64.add, F64.sub, F64.toF32, F32.toF64]
    rw [sub_mul]
    generalize quarterTurn.units = K at hK0 hKn ⊢
    generalize r.units * (pow2 925 : Int) = R at hR ⊢
    generalize pow2 925 = U at hU hbig hR hPW hKn ⊢
    generalize 2 ^ k * 2 ^ 149 * U = PW at hbig hR hPW hKn ⊢
    have hlt : ∀ x : Nat, x ≤ 4 * PW → x < 2 ^ 2 ^ 13 := fun x hx =>
      lt_of_le_of_lt hx (lt_of_lt_of_le (by omega) hbig)
    clear hbig
    have h1 : 1 ≤ PW := by omega
    have t1 : (R + K).natAbs ≤ R.natAbs + PW :=
      le_trans (Int.natAbs_add_le R K) (Nat.add_le_add_left hKn _)
    have e1 := roundRatio_error 53 (R + K) 1 (by decide)
      (by rw [Nat.div_one]; exact hlt _ (by omega))
    generalize roundRatio 53 (R + K) 1 = s1 at e1 ⊢
    rw [Nat.cast_one, mul_one, Nat.mul_one] at e1
    have t2 := natAbs_le_add_sub s1 (R + K)
    have b1 := error_le_of_double _ _ PW e1 (by omega) h1
    have e2 := roundRatio_error 24 s1 U hU 
      (lt_of_le_of_lt (Nat.div_le_self _ _) (hlt _ (by omega)))
    generalize roundRatio 24 s1 U = r1 at e2 ⊢
    have b2 := error_le_of_float _ _ U PW e2 (by omega) hPW
    have t3 := natAbs_sub_le_three R K s1 (r1 * (U : Int))
    have e3 := roundRatio_error 53 (r1 * (U : Int) - K) 1 (by decide)
      (by rw [Nat.div_one]; exact hlt _ (by omega))
    generalize roundRatio 53 (r1 * (U : Int) - K) 1 = s2 at e3 ⊢
    rw [Nat.cast_one, mul_one, Nat.mul_one] at e3
    have t4 := natAbs_le_add_sub s2 (r1 * (U : Int) - K)
    have b3 := error_le_of_double _ _ PW e3 (by omega) h1
    have e4 := roundRatio_error 24 s2 U hU 
      (lt_of_le_of_lt (Nat.div_le_self _ _) (hlt _ (by omega)))
    generalize roundRatio 24 s2 U = r2 at e4 ⊢
    have t5 := natAbs_sub_le_four R K s1 (r1 * (U : Int)) s2 (r2 * (U : Int))
    exact round_trip_arith _ _ _ _ _ _ _ _ _ _ U PW hU hPW hR t1 t2 t3 t4 t5 e1 e2 e3 e4
  rw [Int.natAbs_mul, Int.natAbs_ofNat, ← Nat.mul_assoc] at hgoal
  exact Nat.le_of_mul_le_mul_right hgoal hU

theorem two_units : (F32.ofInt 2).units = ((pow2 150 : Nat) : Int) := by decide

theorem half_units : half.units = ((pow2 1073 : Nat) : Int) := by decide

/-- Multiplying a `float` by `2` and then by the `double` `.5` is exact, short of overflow. -/
theorem double_halve (s : F32) (m : Int) (e : Nat) (hs : s.units = m * 2 ^ e)
    (hm : m.natAbs < 2 ^ 24) (he : e ≤ 252) : (s.mul (F32.ofInt 2)).mulDouble half = s := by
  have hm53 : m.natAbs < 2 ^ 53 := lt_trans hm (by norm_num)
  have h1 : s.units * ((pow2 150 : Nat) : Int) = m * 2 ^ (e + 1) * ((pow2 149 : Nat) : Int) := by
    simp only [hs, pow2_eq, Nat.cast_pow, Nat.cast_ofNat]
    rw [mul_assoc, mul_assoc, ← pow_add, ← pow_add]
  have h2 : m * 2 ^ (e + 1) * ((pow2 925 : Nat) : Int) * ((pow2 1073 : Nat) : Int) =
      m * 2 ^ (e + 925) * ((pow2 1074 : Nat) : Int) := by
    simp only [pow2_eq, Nat.cast_pow, Nat.cast_ofNat]
    rw [mul_assoc, mul_assoc, mul_assoc, ← pow_add, ← pow_add, ← pow_add]
  have h3 : m * 2 ^ (e + 925) = m * 2 ^ e * ((pow2 925 : Nat) : Int) := by
    simp only [pow2_eq, Nat.cast_pow, Nat.cast_ofNat]
    rw [mul_assoc, ← pow_add]
  have p149 : 0 < pow2 149 := by decide
  have p925 : 0 < pow2 925 := by decide
  have p1074 : 0 < pow2 1074 := by decide
  cases s with
  | mk u =>
    simp only at hs
    simp only [F32.mul, F32.mulDouble, F64.mul, F64.toF32, F32.toF64, two_units, half_units]
    rw [F32.mk.injEq]
    rw [← hs] at h3 
    rw [hs, ← hs, h1, roundRatio_dyadic 24 m (e + 1) _ p149 hm (by omega), h2,
      roundRatio_dyadic 53 m (e + 925) _ p1074 hm53 (by omega), h3, hs,
      roundRatio_dyadic 24 m e _ p925 hm (by omega)]

/-! ## Finite floats -/

theorem rotate_back (v : Viewer) :
    key_callback GLFW_KEY_E GLFW_PRESS (key_callback GLFW_KEY_Q GLFW_PRESS v) =
      { v with rotation := (v.rotation.addDouble quarterTurn).subDouble quarterTurn } := by
  rw [key_callback_press, key_callback_press, (commandTable_press v).1,
    (commandTable_press _).2.1, ← quarterTurn_eq]

theorem zoom_back (v : Viewer) :
    key_callback GLFW_KEY_MINUS GLFW_PRESS (key_callback GLFW_KEY_EQUAL GLFW_PRESS v) =
      { v with scale := (v.scale.mul (F32.ofInt 2)).mulDouble half } := by
  rw [key_callback_press, key_callback_press, (commandTable_press v).2.2.1,
    (commandTable_press _).2.2.2.1]

theorem initial_scale_units : Viewer.initial.scale.units = 1 * 2 ^ 149 :=
  (by decide : Viewer.initial.scale.units = ((pow2 149 : Nat) : Int)).trans
    (by rw [pow2_eq]; norm_num)

/-- Claim C12, counterexample. From the initial state, where `rotation` is `0`, a press of Q
followed by a press of E leaves `rotation = 3075919 * 2^-46`, about `4.4e-8`, which is not
`0`: the sum `0 + 90*pi/180` is rounded to `float` when it is stored, and the difference of
that `float` and the `double` `90*pi/180` is the rounding error. -/
theorem rotate_back_not_exact :
    (key_callback GLFW_KEY_E GLFW_PRESS
        (key_callback GLFW_KEY_Q GLFW_PRESS Viewer.initial)).rotation =
        F32.dyadic 3075919 (-46) ∧
      Viewer.initial.rotation = F32.zero ∧
      F32.dyadic 3075919 (-46) ≠ F32.zero := by
  decide

/-- Claim C12, amended. For every transform state, a press of Q followed by a press of E
changes no field other than `rotation`, and a press of `=` followed by a press of `-` changes
no field other than `scale`. The rotation is restored up to rounding: when
`|rotation| ≤ 2^k` for some `1 ≤ k ≤ 128`, the new value differs from the prior one by at
most `2^(k-22)` (both sides of the inequality are counted in units of `2^-149` and multiplied
by `2^22`). The scale is restored exactly when it is a `float` of magnitude below `2^127`,
that is `m * 2^e` units of `2^-149` with `|m| < 2^24` and `e ≤ 252`, so that its double is
finite; the whole state is then the prior one. -/
theorem rotate_zoom_round_trip (v : Viewer) (k : Nat) (m : Int) (e : Nat) :
    (key_callback GLFW_KEY_E GLFW_PRESS (key_callback GLFW_KEY_Q GLFW_PRESS v) =
        { v with rotation := (key_callback GLFW_KEY_E GLFW_PRESS
            (key_callback GLFW_KEY_Q GLFW_PRESS v)).rotation }) ∧
      (key_callback GLFW_KEY_MINUS GLFW_PRESS (key_callback GLFW_KEY_EQUAL GLFW_PRESS v) =
        { v with scale := (key_callback GLFW_KEY_MINUS GLFW_PRESS
            (key_callback GLFW_KEY_EQUAL GLFW_PRESS v)).scale }) ∧
      (1 ≤ k → k ≤ 128 → v.rotation.units.natAbs ≤ 2 ^ k * 2 ^ 149 →
        2 ^ 22 * ((key_callback GLFW_KEY_E GLFW_PRESS
            (key_callback GLFW_KEY_Q GLFW_PRESS v)).rotation.units -
              v.rotation.units).natAbs ≤ 2 ^ k * 2 ^ 149) ∧
      (v.scale.units = m * 2 ^ e → m.natAbs < 2 ^ 24 → e ≤ 252 →
        key_callback GLFW_KEY_MINUS GLFW_PRESS (key_callback GLFW_KEY_EQUAL GLFW_PRESS v) =
          v) := by
  refine ⟨?_, ?_, ?_, ?_⟩
  · rw [rotate_back]
  · rw [zoom_back]
  · intro hk1 hk hr
    rw [rotate_back]
    exact add_sub_quarterTurn_error v.rotation k hk1 hk hr
  · intro hs hm he
    rw [zoom_back, double_halve v.scale m e hs hm he]

/-- Witness for C12: the initial state, with `rotation = 0` (bound `2^1`) and
`scale = 1 = 1 * 2^149` units. -/
theorem rotate_zoom_round_trip_witness :
    ((1 ≤ 1 ∧ 1 ≤ 128 ∧ Viewer.initial.rotation.units.natAbs ≤ 2 ^ 1 * 2 ^ 149) ∧
        2 ^ 22 * ((key_callback GLFW_KEY_E GLFW_PRESS
            (key_callback GLFW_KEY_Q GLFW_PRESS Viewer.initial)).rotation.units -
              Viewer.initial.rotation.units).natAbs ≤ 2 ^ 1 * 2 ^ 149) ∧
      ((Viewer.initial.scale.units = 1 * 2 ^ 149 ∧ (1 : Int).natAbs < 2 ^ 24 ∧ 149 ≤ 252) ∧
        key_callback GLFW_KEY_MINUS GLFW_PRESS
            (key_callback GLFW_KEY_EQUAL GLFW_PRESS Viewer.initial) =
          Viewer.initial) :=
  ⟨⟨⟨by decide, by decide, by decide⟩,
      (rotate_zoom_round_trip Viewer.initial 1 1 149).2.2.1 (by decide) (by decide)
        (by decide)⟩,
    ⟨⟨initial_scale_units, by decide, by decide⟩,
      (rotate_zoom_round_trip Viewer.initial 1 1 149).2.2.2 initial_scale_units (by decide)
        (by decide)⟩⟩

end EzView
